import Mathlib

/-!
Verification of the serverbox repository: a shallow embedding in Lean 4 of the
instance lifecycle manager, resume coordinator, auth normalizer, retry helper,
health prober, proxy auth gate and the sqlite-backed metadata store, together
with theorems settling the specification claims.
-/

set_option maxRecDepth 4096

/-- Decidable equality for Except, used to evaluate concrete outcomes. -/
instance {E A : Type} [DecidableEq E] [DecidableEq A] : DecidableEq (Except E A)
  | .error e, .error e2 =>
    if h : e = e2 then isTrue (by rw [h]) else isFalse (by intro hh; cases hh; exact h rfl)
  | .error _, .ok _ => isFalse (by intro h; cases h)
  | .ok _, .error _ => isFalse (by intro h; cases h)
  | .ok a, .ok a2 =>
    if h : a = a2 then isTrue (by rw [h]) else isFalse (by intro hh; cases hh; exact h rfl)

/-- Error codes of ServerBoxError (packages/core/src/errors.ts). -/
inductive ServerBoxErrorCode
  | INVALID_CONFIG
  | MISSING_AUTH
  | MISSING_DAYTONA_API_KEY
  | INSTANCE_NOT_FOUND
  | INSTANCE_NOT_RUNNING
  | SANDBOX_NOT_FOUND
  | CREATE_FAILED
  | BOOTSTRAP_FAILED
  | HEALTH_CHECK_FAILED
  | DAYTONA_API_ERROR
  | STORE_ERROR
  | UNSUPPORTED_OPERATION
  deriving DecidableEq, Repr

/-- A thrown JavaScript value as the core observes it: either a ServerBoxError
carrying its code, a plain Error, or a non-Error value. The msgNotFound flag
records whether message.toLowerCase() contains the text "not found", which is
the only property of the message the embedded code inspects. -/
inductive JsError
  | serverBox (code : ServerBoxErrorCode) (msgNotFound : Bool)
  | errObj (msgNotFound : Bool)
  | nonError
  deriving DecidableEq, Repr

/-- ServerBoxError.wrap (packages/core/src/errors.ts): a ServerBoxError passes
through unchanged; an Error is rewrapped under the given code, its message is
kept inside the new message; a non-Error value yields the fallback message. -/
def ServerBoxError.wrap (code : ServerBoxErrorCode) (e : JsError) : JsError :=
  match e with
  | .serverBox c m => .serverBox c m
  | .errObj m => .serverBox code m
  | .nonError => .serverBox code false

/-- Variant of wrap for an optional cause, as in waitForOpenCodeHealth where
lastError may still be undefined. -/
def ServerBoxError.wrapOpt (code : ServerBoxErrorCode) (e : Option JsError) : JsError :=
  match e with
  | some err => ServerBoxError.wrap code err
  | none => .serverBox code false

/-- Lifecycle states (packages/core/src/types.ts). -/
inductive ServerBoxState
  | provisioning
  | bootstrapping
  | running
  | stopped
  | archived
  | error
  | destroyed
  deriving DecidableEq, Repr

/-- String spelling of a state, as persisted to the store. -/
def ServerBoxState.toText : ServerBoxState → String
  | .provisioning => "provisioning"
  | .bootstrapping => "bootstrapping"
  | .running => "running"
  | .stopped => "stopped"
  | .archived => "archived"
  | .error => "error"
  | .destroyed => "destroyed"

/-- Instance record (packages/core/src/types.ts, ServerBoxMetadata). The
providers list and the labels record are value types here, matching the JSON
columns of the store; labels is an insertion-ordered key-value list standing
for a JavaScript Record of strings. -/
structure ServerBoxMetadata where
  id : String
  sandboxId : String
  state : ServerBoxState
  url : Option String
  previewToken : Option String
  username : String
  password : String
  providers : List String
  labels : List (String × String)
  createdAt : String
  updatedAt : String
  deriving DecidableEq, Repr

/-- Whitespace for the JavaScript String.prototype.trim model: the ASCII
whitespace characters, which cover every string the embedded code trims. -/
def isJsSpace (c : Char) : Bool :=
  c = ' ' || c = '\t' || c = '\n' || c = '\r' || c = '\x0b' || c = '\x0c'

/-- Model of JavaScript String.prototype.trim. -/
def jsTrim (s : String) : String :=
  ⟨((s.data.dropWhile isJsSpace).reverse.dropWhile isJsSpace).reverse⟩

/-- Model of JavaScript String.prototype.toLowerCase on the ASCII range the
embedded code compares against. -/
def jsToLower (s : String) : String :=
  ⟨s.data.map Char.toLower⟩

/- ------------------------------------------------------------------ -/
/- Auth normalizer (packages/sdk/src/auth.ts)                          -/
/- ------------------------------------------------------------------ -/

/-- One provider auth entry. apiKey mirrors the optional string field; env
mirrors the optional Record of strings (insertion-ordered key-value list). -/
structure ProviderAuth where
  provider : String
  apiKey : Option String := none
  env : Option (List (String × String)) := none
  deriving DecidableEq, Repr

/-- JavaScript truthiness of an optional string: undefined and the empty
string are falsy. -/
def truthyStr : Option String → Bool
  | none => false
  | some s => !(s = "")

/-- hasKeys from auth.ts: Boolean(value && Object.keys(value).length > 0). -/
def hasKeys : Option (List (String × String)) → Bool
  | none => false
  | some kvs => 0 < kvs.length

/-- The slice of process.env read by normalizeProviderAuth. A some "" value
models an environment variable which is set but empty. -/
structure AuthEnv where
  OPENCODE_ZEN_API_KEY : Option String := none
  OPENCODE_API_KEY : Option String := none

/-- env.OPENCODE_ZEN_API_KEY ?? env.OPENCODE_API_KEY: the nullish coalescing
falls through only when the first variable is undefined. -/
def AuthEnv.zenKey (env : AuthEnv) : Option String :=
  match env.OPENCODE_ZEN_API_KEY with
  | some v => some v
  | none => env.OPENCODE_API_KEY

/-- The auth argument of normalizeProviderAuth: undefined, a single entry, or
an array of entries. -/
inductive AuthInput
  | undef
  | single (entry : ProviderAuth)
  | list (entries : List ProviderAuth)

/-- JavaScript Map.set on an insertion-ordered association list: an existing
key keeps its position and gets the new value, a new key is appended. -/
def jsMapSet (m : List (String × ProviderAuth)) (k : String) (v : ProviderAuth) :
    List (String × ProviderAuth) :=
  if m.any (fun p => p.1 = k) then
    m.map (fun p => if p.1 = k then (k, v) else p)
  else
    m ++ [(k, v)]

/-- The copy of an entry that normalizeProviderAuth stores in its map: the
provider is trimmed, apiKey is carried over, env is value-copied. -/
def normalizeEntry (entry : ProviderAuth) : ProviderAuth :=
  { provider := jsTrim entry.provider, apiKey := entry.apiKey, env := entry.env }

/-- The validation and dedup loop of normalizeProviderAuth over the entries
array, carrying the insertion-ordered map. -/
def normalizeLoop :
    List ProviderAuth → List (String × ProviderAuth) →
    Except ServerBoxErrorCode (List (String × ProviderAuth))
  | [], acc => .ok acc
  | entry :: rest, acc =>
    let provider := jsTrim entry.provider
    if provider = "" then
      .error .INVALID_CONFIG
    else if !truthyStr entry.apiKey && !hasKeys entry.env then
      .error .INVALID_CONFIG
    else
      normalizeLoop rest
        (jsMapSet acc provider
          { provider := provider, apiKey := entry.apiKey, env := entry.env })

/-- DEFAULTS.DEFAULT_PROVIDER_ID (packages/core/src/constants.ts). -/
def DEFAULT_PROVIDER_ID : String := "opencode"

/-- normalizeProviderAuth (packages/sdk/src/auth.ts). -/
def normalizeProviderAuth (authInput : AuthInput) (env : AuthEnv) :
    Except ServerBoxErrorCode (List ProviderAuth) :=
  match authInput with
  | .undef =>
    match env.zenKey with
    | some zen =>
      if zen = "" then .error .MISSING_AUTH
      else .ok [{ provider := DEFAULT_PROVIDER_ID, apiKey := some zen }]
    | none => .error .MISSING_AUTH
  | .single entry =>
    (normalizeLoop [entry] []).map (fun m => m.map Prod.snd)
  | .list entries =>
    if entries.length = 0 then .error .MISSING_AUTH
    else (normalizeLoop entries []).map (fun m => m.map Prod.snd)

/-- JavaScript object property assignment on an insertion-ordered key-value
list: an existing key keeps its position, a new key is appended. -/
def jsObjSet (m : List (String × String)) (k v : String) : List (String × String) :=
  if m.any (fun p => p.1 = k) then
    m.map (fun p => if p.1 = k then (k, v) else p)
  else
    m ++ [(k, v)]

/-- buildAuthRecord (packages/sdk/src/auth.ts): providers map to their apiKey,
entries with a falsy apiKey are skipped. -/
def buildAuthRecord (entries : List ProviderAuth) : List (String × String) :=
  entries.foldl
    (fun acc entry =>
      if truthyStr entry.apiKey then jsObjSet acc entry.provider (entry.apiKey.getD "")
      else acc)
    []

/-- collectProviderEnv (packages/sdk/src/auth.ts): merge all env maps, later
entries overwrite earlier ones. -/
def collectProviderEnv (entries : List ProviderAuth) : List (String × String) :=
  entries.foldl
    (fun acc entry =>
      match entry.env with
      | none => acc
      | some kvs => kvs.foldl (fun a p => jsObjSet a p.1 p.2) acc)
    []

/- ------------------------------------------------------------------ -/
/- Proxy auth gate (packages/proxy/src/server.ts, auth.ts)             -/
/- ------------------------------------------------------------------ -/

/-- The proxyApiKey configuration field of ProxyConfig: a string, an explicit
null, or absent. -/
inductive ProxyKeyConfig
  | unset
  | explicitNull
  | keyValue (value : String)
  deriving DecidableEq, Repr

/-- The auth-relevant slice of the resolved proxy configuration built by the
ServerBoxProxy constructor. -/
structure ProxyAuthConfig where
  adminApiKey : String
  proxyApiKey : Option String
  proxyAuthDisabled : Bool
  deriving DecidableEq, Repr

/-- Auth-key resolution of the ServerBoxProxy constructor
(packages/proxy/src/server.ts): a missing adminApiKey is INVALID_CONFIG;
proxyAuthDisabled records an explicit null proxyApiKey; otherwise the key is
the trimmed configured string when non-empty, else the admin key. -/
def resolveProxyAuthConfig (adminApiKey : String) (proxyApiKey : ProxyKeyConfig) :
    Except ServerBoxErrorCode ProxyAuthConfig :=
  if adminApiKey = "" then .error .INVALID_CONFIG
  else
    let proxyAuthDisabled : Bool :=
      match proxyApiKey with
      | .explicitNull => true
      | _ => false
    let normalized : Option String :=
      match proxyApiKey with
      | .keyValue s => some (jsTrim s)
      | _ => none
    .ok
      { adminApiKey := adminApiKey
        proxyApiKey :=
          if proxyAuthDisabled then none
          else
            match normalized with
            | some s => some (if s = "" then adminApiKey else s)
            | none => some adminApiKey
        proxyAuthDisabled := proxyAuthDisabled }

/-- checkApiKey (packages/proxy/src/auth.ts): the header value must be a
non-empty string equal to the expected key. -/
def checkApiKey (actual : Option String) (expected : String) : Bool :=
  match actual with
  | none => false
  | some a => 0 < a.length && a = expected

/-- ensureProxyAuth (packages/proxy/src/server.ts): requests pass when proxy
auth is disabled or no key is resolved, otherwise the x-serverbox-proxy-key
header must match. -/
def ensureProxyAuth (cfg : ProxyAuthConfig) (headerValue : Option String) : Bool :=
  if cfg.proxyAuthDisabled then true
  else
    match cfg.proxyApiKey with
    | none => true
    | some key => checkApiKey headerValue key

/- ------------------------------------------------------------------ -/
/- Retry helper (packages/core/src/utils/retry.ts)                     -/
/- ------------------------------------------------------------------ -/

/-- Observable outcome of a withRetry run: the value returned or error thrown
(error none stands for the undefined lastError thrown when the loop never
runs), the number of attempts performed, and the list of backoff sleeps. -/
structure RetryTrace (E A : Type) where
  result : Except (Option E) A
  attempts : Nat
  delays : List Nat

/-- Loop of withRetry. fn gives the outcome of each attempt by index, jitter
gives the value of Math.floor(Math.random() * 150) drawn before each retry.
fuel counts the attempts still allowed: it starts at retries, and fuel = 1
exactly when attempt = retries - 1, the condition under which the code
rethrows instead of sleeping. -/
def retryGo {E A : Type} (fn : Nat → Except E A) (shouldRetry : E → Bool)
    (jitter : Nat → Nat) (baseDelayMs maxDelayMs : Nat) :
    Nat → Nat → List Nat → RetryTrace E A
  | 0, attempt, delays => ⟨.error none, attempt, delays⟩
  | fuel + 1, attempt, delays =>
    match fn attempt with
    | .ok a => ⟨.ok a, attempt + 1, delays⟩
    | .error e =>
      if !shouldRetry e || fuel = 0 then ⟨.error (some e), attempt + 1, delays⟩
      else
        let exponential := min (baseDelayMs * 2 ^ attempt) maxDelayMs
        retryGo fn shouldRetry jitter baseDelayMs maxDelayMs fuel (attempt + 1)
          (delays ++ [exponential + jitter attempt])

/-- withRetry (packages/core/src/utils/retry.ts) with every option explicit. -/
def withRetry {E A : Type} (fn : Nat → Except E A) (shouldRetry : E → Bool)
    (jitter : Nat → Nat) (retries baseDelayMs maxDelayMs : Nat) : RetryTrace E A :=
  retryGo fn shouldRetry jitter baseDelayMs maxDelayMs retries 0 []

/-- The withRetry call site of ServerBox.create: retries 3, default base delay
500 ms, default cap 5000 ms, default shouldRetry (always true). -/
def createSandboxRetry {E A : Type} (fn : Nat → Except E A) (jitter : Nat → Nat) :
    RetryTrace E A :=
  withRetry fn (fun _ => true) jitter 3 500 5000

/- ------------------------------------------------------------------ -/
/- Health prober (packages/sdk/src/sandbox/health.ts)                  -/
/- ------------------------------------------------------------------ -/

/-- Observable outcome of waitForOpenCodeHealth: the health payload returned,
or the error thrown after the timeout budget elapsed, together with the number
of checkOpenCodeHealth calls performed. outOfFuel marks runs longer than the
modelling fuel and never arises in the theorems below. -/
inductive HealthWaitOutcome (H : Type)
  | healthy (payload : H) (checks : Nat)
  | thrown (e : JsError) (checks : Nat)
  | outOfFuel

/-- Loop of waitForOpenCodeHealth. check i is the outcome of the i-th
checkOpenCodeHealth call, stepMs i the wall time it consumes, and now the
value of Date.now() - startedAt; each failed round advances time by the check
duration plus the poll sleep. -/
def healthWaitGo {H : Type} (check : Nat → Except JsError H) (stepMs : Nat → Nat)
    (timeoutMs pollIntervalMs : Nat) :
    Nat → Nat → Nat → Option JsError → HealthWaitOutcome H
  | fuel, i, now, lastError =>
    if now < timeoutMs then
      match fuel with
      | 0 => .outOfFuel
      | fuel + 1 =>
        match check i with
        | .ok payload => .healthy payload (i + 1)
        | .error e =>
          healthWaitGo check stepMs timeoutMs pollIntervalMs fuel (i + 1)
            (now + stepMs i + pollIntervalMs) (some e)
    else
      .thrown (ServerBoxError.wrapOpt .HEALTH_CHECK_FAILED lastError) i

/-- waitForOpenCodeHealth (packages/sdk/src/sandbox/health.ts). -/
def waitForOpenCodeHealth {H : Type} (check : Nat → Except JsError H)
    (stepMs : Nat → Nat) (timeoutMs pollIntervalMs fuel : Nat) : HealthWaitOutcome H :=
  healthWaitGo check stepMs timeoutMs pollIntervalMs fuel 0 0 none

/-- Shape of the errors checkOpenCodeHealth can throw: a HEALTH_CHECK_FAILED
ServerBoxError for a non-2xx status or an unhealthy body, or a plain Error
from fetch and JSON parsing. -/
def healthCheckErrorShape (e : JsError) : Prop :=
  (∃ b, e = .serverBox .HEALTH_CHECK_FAILED b) ∨ (∃ b, e = .errObj b) ∨ e = .nonError

/- ------------------------------------------------------------------ -/
/- JSON serialization of the providers and labels columns              -/
/- (packages/core/src/store/sqlite.ts uses JSON.stringify/JSON.parse)  -/
/- ------------------------------------------------------------------ -/

/-- Lowercase hex digit, as emitted by JSON.stringify in control escapes. -/
def hexDigitChar (n : Nat) : Char :=
  if n < 10 then Char.ofNat (48 + n) else Char.ofNat (87 + n)

/-- Escaping of one character by JSON.stringify: quote and backslash get a
backslash escape, the named control characters get their short escapes, other
control characters below 0x20 get a \u escape, everything else is verbatim. -/
def escapeJsonChar (c : Char) : List Char :=
  if c = '"' then ['\\', '"']
  else if c = '\\' then ['\\', '\\']
  else if c = '\x08' then ['\\', 'b']
  else if c = '\x09' then ['\\', 't']
  else if c = '\x0a' then ['\\', 'n']
  else if c = '\x0c' then ['\\', 'f']
  else if c = '\x0d' then ['\\', 'r']
  else if c.toNat < 32 then
    ['\\', 'u', '0', '0', hexDigitChar (c.toNat / 16), hexDigitChar (c.toNat % 16)]
  else [c]

/-- JSON string literal for the characters of a string. -/
def encodeJsonStringChars (s : String) : List Char :=
  '"' :: s.data.flatMap escapeJsonChar ++ ['"']

/-- Numeric value of a hex digit character. -/
def hexVal (c : Char) : Option Nat :=
  if 48 ≤ c.toNat ∧ c.toNat ≤ 57 then some (c.toNat - 48)
  else if 97 ≤ c.toNat ∧ c.toNat ≤ 102 then some (c.toNat - 87)
  else if 65 ≤ c.toNat ∧ c.toNat ≤ 70 then some (c.toNat - 55)
  else none

/-- Meaning of a single-character JSON escape. -/
def unescapeCode (e : Char) : Option Char :=
  if e = '"' then some '"'
  else if e = '\\' then some '\\'
  else if e = '/' then some '/'
  else if e = 'b' then some '\x08'
  else if e = 't' then some '\x09'
  else if e = 'n' then some '\x0a'
  else if e = 'f' then some '\x0c'
  else if e = 'r' then some '\x0d'
  else none

/-- Model of the JSON.parse handling of a string literal body, after the
opening quote: returns the decoded characters and the input following the
closing quote. Restricted to the single-code-unit escapes the store ever
writes; surrogate-pair recombination is not modelled. -/
def parseStringBody : List Char → Option (List Char × List Char)
  | [] => none
  | c :: rest =>
    if c = '"' then some ([], rest)
    else if c = '\\' then
      match rest with
      | [] => none
      | e :: rest2 =>
        if e = 'u' then
          match rest2 with
          | h1 :: h2 :: h3 :: h4 :: rest3 => do
            let a ← hexVal h1
            let b ← hexVal h2
            let c2 ← hexVal h3
            let d ← hexVal h4
            let (s, r) ← parseStringBody rest3
            pure (Char.ofNat (((a * 16 + b) * 16 + c2) * 16 + d) :: s, r)
          | _ => none
        else do
          let decoded ← unescapeCode e
          let (s, r) ← parseStringBody rest2
          pure (decoded :: s, r)
    else do
      let (s, r) ← parseStringBody rest
      pure (c :: s, r)

/-- A JSON string value: opening quote then a string body. -/
def parseJsonString : List Char → Option (List Char × List Char)
  | c :: rest => if c = '"' then parseStringBody rest else none
  | [] => none

/-- Comma-prefixed encodings of the items after the first one. -/
def encodeItemsTail (xs : List String) : List Char :=
  xs.flatMap (fun x => ',' :: encodeJsonStringChars x)

/-- JSON.stringify of a string array, e.g. the providers column. -/
def encodeJsonStringList (xs : List String) : String :=
  match xs with
  | [] => ⟨['[', ']']⟩
  | x :: rest => ⟨'[' :: encodeJsonStringChars x ++ encodeItemsTail rest ++ [']']⟩

/-- Items of a string array after the first one: a close bracket, or a comma
followed by a string and further items. The fuel bounds the item count. -/
def parseListRestGo : Nat → List Char → Option (List String × List Char)
  | _, [] => none
  | fuel, c :: rest =>
    if c = ']' then some ([], rest)
    else if c = ',' then
      match fuel with
      | 0 => none
      | fuel + 1 => do
        let (s, r) ← parseJsonString rest
        let (items, r2) ← parseListRestGo fuel r
        pure (String.mk s :: items, r2)
    else none

/-- Model of JSON.parse restricted to arrays of strings with no interior
whitespace, the exact shape encodeJsonStringList produces. -/
def parseJsonStringList (s : String) : Option (List String) :=
  match s.data with
  | c :: rest =>
    if c = '[' then
      match rest with
      | c2 :: rest2 =>
        if c2 = ']' then if rest2 = [] then some [] else none
        else do
          let (x, r) ← parseJsonString rest
          let (items, r2) ← parseListRestGo r.length r
          if r2 = [] then pure (String.mk x :: items) else none
      | [] => none
    else none
  | [] => none

/-- Encoding of one key-value pair of a string object. -/
def encodePairChars (p : String × String) : List Char :=
  encodeJsonStringChars p.1 ++ ':' :: encodeJsonStringChars p.2

/-- Comma-prefixed encodings of the pairs after the first one. -/
def encodePairsTail (kvs : List (String × String)) : List Char :=
  kvs.flatMap (fun p => ',' :: encodePairChars p)

/-- JSON.stringify of an object with string values, e.g. the labels column;
keys appear in insertion order. -/
def encodeJsonStringMap (kvs : List (String × String)) : String :=
  match kvs with
  | [] => ⟨[Char.ofNat 123, Char.ofNat 125]⟩
  | p :: rest =>
    ⟨Char.ofNat 123 :: encodePairChars p ++ encodePairsTail rest ++ [Char.ofNat 125]⟩

/-- One key-value pair of a string object: string, colon, string. -/
def parseJsonPair (l : List Char) : Option ((String × String) × List Char) := do
  let (k, r) ← parseJsonString l
  match r with
  | c :: r2 =>
    if c = ':' then do
      let (v, r3) ← parseJsonString r2
      pure ((String.mk k, String.mk v), r3)
    else none
  | [] => none

/-- Pairs of a string object after the first one. -/
def parseMapRestGo : Nat → List Char → Option (List (String × String) × List Char)
  | _, [] => none
  | fuel, c :: rest =>
    if c = Char.ofNat 125 then some ([], rest)
    else if c = ',' then
      match fuel with
      | 0 => none
      | fuel + 1 => do
        let (p, r) ← parseJsonPair rest
        let (items, r2) ← parseMapRestGo fuel r
        pure (p :: items, r2)
    else none

/-- Model of JSON.parse restricted to objects with string values and no
interior whitespace, the exact shape encodeJsonStringMap produces. The pairs
are returned in textual order; inputs with duplicate keys never arise from a
JavaScript record. -/
def parseJsonStringMap (s : String) : Option (List (String × String)) :=
  match s.data with
  | c :: rest =>
    if c = Char.ofNat 123 then
      match rest with
      | c2 :: rest2 =>
        if c2 = Char.ofNat 125 then if rest2 = [] then some [] else none
        else do
          let (p, r) ← parseJsonPair rest
          let (items, r2) ← parseMapRestGo r.length r
          if r2 = [] then pure (p :: items) else none
      | [] => none
    else none
  | [] => none

/- ------------------------------------------------------------------ -/
/- SQLite metadata store (packages/core/src/store/sqlite.ts)           -/
/- ------------------------------------------------------------------ -/

/-- One row of the instances table. -/
structure Row where
  id : String
  sandbox_id : String
  state : String
  url : Option String
  preview_token : Option String
  username : String
  password : String
  providers : String
  labels : String
  created_at : String
  updated_at : String
  deriving DecidableEq, Repr

/-- normalizeState (sqlite.ts): lowercase the persisted text; unknown values
degrade to the error state. -/
def normalizeState (state : String) : ServerBoxState :=
  let normalized := jsToLower state
  if normalized = "provisioning" then .provisioning
  else if normalized = "bootstrapping" then .bootstrapping
  else if normalized = "running" then .running
  else if normalized = "stopped" then .stopped
  else if normalized = "archived" then .archived
  else if normalized = "error" then .error
  else if normalized = "destroyed" then .destroyed
  else .error

/-- safeParseJson for the providers column: a falsy value or a parse failure
degrades to the fallback. -/
def safeParseJsonList (value : String) (fallback : List String) : List String :=
  if value = "" then fallback
  else (parseJsonStringList value).getD fallback

/-- safeParseJson for the labels column. -/
def safeParseJsonMap (value : String) (fallback : List (String × String)) :
    List (String × String) :=
  if value = "" then fallback
  else (parseJsonStringMap value).getD fallback

/-- mapRow (sqlite.ts): rebuild a record from a row. -/
def mapRow (row : Row) : ServerBoxMetadata :=
  { id := row.id
    sandboxId := row.sandbox_id
    state := normalizeState row.state
    url := row.url
    previewToken := row.preview_token
    username := row.username
    password := row.password
    providers := safeParseJsonList row.providers []
    labels := safeParseJsonMap row.labels []
    createdAt := row.created_at
    updatedAt := row.updated_at }

/-- The row written by SQLiteMetadataStore.set: scalar fields verbatim, the
state as its string spelling, providers and labels JSON-serialized. -/
def toRow (m : ServerBoxMetadata) : Row :=
  { id := m.id
    sandbox_id := m.sandboxId
    state := m.state.toText
    url := m.url
    preview_token := m.previewToken
    username := m.username
    password := m.password
    providers := encodeJsonStringList m.providers
    labels := encodeJsonStringMap m.labels
    created_at := m.createdAt
    updated_at := m.updatedAt }

/-- The instances table, keyed by the primary-key column id. -/
abbrev SqliteTable := List Row

/-- INSERT ... ON CONFLICT(id) DO UPDATE: replace the row with the matching
id, or append a new row. -/
def tableSet (tbl : SqliteTable) (row : Row) : SqliteTable :=
  if tbl.any (fun r => r.id = row.id) then
    tbl.map (fun r => if r.id = row.id then row else r)
  else
    tbl ++ [row]

/-- SELECT * FROM instances WHERE id = ?. -/
def tableGet (tbl : SqliteTable) (id : String) : Option Row :=
  tbl.find? (fun r => r.id = id)

/-- SQLiteMetadataStore.set. -/
def sqliteSet (tbl : SqliteTable) (m : ServerBoxMetadata) : SqliteTable :=
  tableSet tbl (toRow m)

/-- SQLiteMetadataStore.get. -/
def sqliteGet (tbl : SqliteTable) (id : String) : Option ServerBoxMetadata :=
  (tableGet tbl id).map mapRow

/-- SQLiteMetadataStore.delete. -/
def sqliteDelete (tbl : SqliteTable) (id : String) : SqliteTable :=
  tbl.filter (fun r => !(r.id = id))

/- ------------------------------------------------------------------ -/
/- Provider adapter surface (packages/sdk/src/daytona.ts)              -/
/- ------------------------------------------------------------------ -/

/-- Preview link returned by DaytonaAdapter.getPreviewLink. -/
structure PreviewLink where
  url : String
  token : Option String
  deriving DecidableEq, Repr

/-- A sandbox as the lifecycle manager sees it: the provider-side id and the
raw state text the SDK reports. -/
structure Sandbox where
  id : String
  rawState : String
  deriving DecidableEq, Repr

/-- getSandboxState (daytona.ts): normalization of the raw provider state. -/
def getSandboxState (rawState : String) : ServerBoxState :=
  let normalized := jsToLower rawState
  if normalized = "running" ∨ normalized = "started" then .running
  else if normalized = "stopped" then .stopped
  else if normalized = "archived" then .archived
  else if normalized = "destroyed" ∨ normalized = "deleted" then .destroyed
  else if normalized = "provisioning" ∨ normalized = "creating" then .provisioning
  else .error

/-- notFound (packages/sdk/src/serverbox.ts): a SANDBOX_NOT_FOUND
ServerBoxError, or any Error whose lowercased message contains "not found". -/
def notFoundErr : JsError → Bool
  | .serverBox .SANDBOX_NOT_FOUND _ => true
  | .serverBox _ msgNotFound => msgNotFound
  | .errObj msgNotFound => msgNotFound
  | .nonError => false

/-- Deterministic snapshot of the provider world during one lifecycle
operation: the outcome of each adapter or sandbox call the operation may
perform, keyed by sandbox id where relevant. Each call is performed at most
once per operation, so a one-shot oracle is faithful. -/
structure ProviderWorld where
  findSandbox : String → Except JsError Sandbox
  createSandbox : Except JsError Sandbox
  getPreviewLink : String → Except JsError PreviewLink
  stopSandbox : String → Except JsError Unit
  startSandbox : String → Except JsError Unit
  archiveSandbox : String → Except JsError Unit
  removeSandbox : String → Except JsError Unit
  bootstrap : String → Except JsError Unit
  waitHealth : String → Except JsError Unit

/- ------------------------------------------------------------------ -/
/- Lifecycle manager (packages/sdk/src/serverbox.ts)                   -/
/- ------------------------------------------------------------------ -/

/-- The metadata store as the lifecycle manager consumes it through the
MetadataStore interface: an id-keyed collection of records. -/
abbrev MetaStore := List ServerBoxMetadata

/-- store.get(id). -/
def msGet (st : MetaStore) (id : String) : Option ServerBoxMetadata :=
  st.find? (fun m => m.id = id)

/-- store.set(metadata): upsert by id. -/
def msSet (st : MetaStore) (m : ServerBoxMetadata) : MetaStore :=
  if st.any (fun r => r.id = m.id) then
    st.map (fun r => if r.id = m.id then m else r)
  else
    st ++ [m]

/-- store.delete(id). -/
def msDelete (st : MetaStore) (id : String) : MetaStore :=
  st.filter (fun m => !(m.id = id))

/-- Result of a lifecycle operation: the thrown error, or a value together
with the store as it stands when the operation returns. -/
abbrev OpResult (A : Type) := Except JsError (A × MetaStore)

/-- syncMetadata (serverbox.ts): reconcile one record against the provider.
A not-found sandbox persists the destroyed state; otherwise the state is
derived from the provider, a running sandbox refreshes the preview link and
any other state nulls it; the record is written only when a watched field
changed. now is the value of new Date().toISOString() at the write. -/
def syncMetadata (w : ProviderWorld) (now : String) (st : MetaStore)
    (m : ServerBoxMetadata) : OpResult ServerBoxMetadata :=
  match w.findSandbox m.sandboxId with
  | .error e =>
    if notFoundErr e then
      let next := { m with state := .destroyed, url := none, previewToken := none,
                           updatedAt := now }
      .ok (next, msSet st next)
    else .error e
  | .ok sandbox =>
    let nextState := getSandboxState sandbox.rawState
    let fetchPreview : Except JsError (Option String × Option String) :=
      if nextState = .running then
        match w.getPreviewLink sandbox.id with
        | .error e => .error e
        | .ok preview => .ok (some preview.url, preview.token)
      else .ok (none, none)
    match fetchPreview with
    | .error e => .error e
    | .ok (nextUrl, nextToken) =>
      let changed := m.state ≠ nextState ∨ m.url ≠ nextUrl ∨ m.previewToken ≠ nextToken
      if changed then
        let next := { m with state := nextState, url := nextUrl,
                             previewToken := nextToken, updatedAt := now }
        .ok (next, msSet st next)
      else
        .ok (m, st)

/-- getMetadataOrThrow (serverbox.ts). -/
def getMetadataOrThrow (st : MetaStore) (id : String) :
    Except JsError ServerBoxMetadata :=
  match msGet st id with
  | some m => .ok m
  | none => .error (.serverBox .INSTANCE_NOT_FOUND true)

/-- ServerBox.get(id): load the record and reconcile it. -/
def serverBoxGet (w : ProviderWorld) (now : String) (st : MetaStore) (id : String) :
    OpResult ServerBoxMetadata :=
  match getMetadataOrThrow st id with
  | .error e => .error e
  | .ok m => syncMetadata w now st m

/-- ServerBox.stopInstance: require the record, find and stop the sandbox,
persist the stopped record with nulled url and preview token. -/
def stopInstance (w : ProviderWorld) (now : String) (st : MetaStore) (id : String) :
    OpResult ServerBoxMetadata :=
  match getMetadataOrThrow st id with
  | .error e => .error e
  | .ok m =>
    match w.findSandbox m.sandboxId with
    | .error e => .error e
    | .ok sandbox =>
      match w.stopSandbox sandbox.id with
      | .error e => .error e
      | .ok _ =>
        let next := { m with state := .stopped, url := none, previewToken := none,
                             updatedAt := now }
        .ok (next, msSet st next)

/-- ServerBox.resumeInstance: require the record, start the sandbox, re-run
bootstrap without installing, fetch the preview link, wait for health, then
persist the running record. -/
def resumeInstance (w : ProviderWorld) (now : String) (st : MetaStore) (id : String) :
    OpResult ServerBoxMetadata :=
  match getMetadataOrThrow st id with
  | .error e => .error e
  | .ok m =>
    match w.findSandbox m.sandboxId with
    | .error e => .error e
    | .ok sandbox =>
      match w.startSandbox sandbox.id with
      | .error e => .error e
      | .ok _ =>
        match w.bootstrap sandbox.id with
        | .error e => .error e
        | .ok _ =>
          match w.getPreviewLink sandbox.id with
          | .error e => .error e
          | .ok preview =>
            match w.waitHealth sandbox.id with
            | .error e => .error e
            | .ok _ =>
              let next := { m with state := .running, url := some preview.url,
                                   previewToken := preview.token, updatedAt := now }
              .ok (next, msSet st next)

/-- ServerBox.archiveInstance. -/
def archiveInstance (w : ProviderWorld) (now : String) (st : MetaStore) (id : String) :
    OpResult ServerBoxMetadata :=
  match getMetadataOrThrow st id with
  | .error e => .error e
  | .ok m =>
    match w.findSandbox m.sandboxId with
    | .error e => .error e
    | .ok sandbox =>
      match w.archiveSandbox sandbox.id with
      | .error e => .error e
      | .ok _ =>
        let next := { m with state := .archived, url := none, previewToken := none,
                             updatedAt := now }
        .ok (next, msSet st next)

/-- The create options the embedded operations consume. -/
structure CreateOptions where
  id : String
  labels : List (String × String)
  deriving DecidableEq, Repr

/-- ServerBox.create, from sandbox creation onward: create the sandbox (the
retry wrapper of claim C4 stands in front of createSandbox and only its final
outcome is visible here), bootstrap, fetch the preview link, wait for health,
then persist the running record with both timestamps fresh. Any failure is
wrapped as CREATE_FAILED and nothing is stored. username, password and
providers come from the create-time inputs. -/
def serverBoxCreate (w : ProviderWorld) (now : String) (st : MetaStore)
    (opts : CreateOptions) (username password : String) (providers : List String) :
    OpResult ServerBoxMetadata :=
  let pipeline : Except JsError (Sandbox × PreviewLink) :=
    match w.createSandbox with
    | .error e => .error e
    | .ok sandbox =>
      match w.bootstrap sandbox.id with
      | .error e => .error e
      | .ok _ =>
        match w.getPreviewLink sandbox.id with
        | .error e => .error e
        | .ok preview =>
          match w.waitHealth sandbox.id with
          | .error e => .error e
          | .ok _ => .ok (sandbox, preview)
  match pipeline with
  | .error e => .error (ServerBoxError.wrap .CREATE_FAILED e)
  | .ok (sandbox, preview) =>
    let metadata : ServerBoxMetadata :=
      { id := opts.id
        sandboxId := sandbox.id
        state := .running
        url := some preview.url
        previewToken := preview.token
        username := username
        password := password
        providers := providers
        labels := opts.labels
        createdAt := now
        updatedAt := now }
    .ok (metadata, msSet st metadata)

/-- labelsMatch (serverbox.ts): every filter pair must be present verbatim.
Lookup mirrors reading a property of a JavaScript record. -/
def labelsMatch (metadataLabels : List (String × String))
    (filter : Option (List (String × String))) : Bool :=
  match filter with
  | none => true
  | some f =>
    f.all (fun p =>
      match metadataLabels.reverse.find? (fun q => q.1 = p.1) with
      | some q => q.2 = p.2
      | none => false)

/-- List options. -/
structure ListOptions where
  refresh : Bool := false
  state : Option ServerBoxState := none
  labels : Option (List (String × String)) := none

/-- The refresh pass of ServerBox.list: reconcile every record, a failed
reconciliation falls back to the stored record. The store writes of the
per-record syncMetadata calls are threaded left to right. -/
def syncAll (w : ProviderWorld) (now : String) :
    MetaStore → List ServerBoxMetadata → List ServerBoxMetadata × MetaStore
  | st, [] => ([], st)
  | st, m :: rest =>
    match syncMetadata w now st m with
    | .ok (m2, st2) =>
      let (items, st3) := syncAll w now st2 rest
      (m2 :: items, st3)
    | .error _ =>
      let (items, st2) := syncAll w now st rest
      (m :: items, st2)

/-- The state filter of ServerBox.list. -/
def applyStateFilter (opt : Option ServerBoxState) (items : List ServerBoxMetadata) :
    List ServerBoxMetadata :=
  match opt with
  | some s => items.filter (fun m => m.state = s)
  | none => items

/-- The labels filter of ServerBox.list. -/
def applyLabelsFilter (opt : Option (List (String × String)))
    (items : List ServerBoxMetadata) : List ServerBoxMetadata :=
  match opt with
  | some f => items.filter (fun m => labelsMatch m.labels (some f))
  | none => items

/-- ServerBox.list: read all records, optionally refresh each, then filter by
state and labels. -/
def serverBoxList (w : ProviderWorld) (now : String) (st : MetaStore)
    (opts : ListOptions) : List ServerBoxMetadata × MetaStore :=
  let pair := if opts.refresh then syncAll w now st st else (st, st)
  (applyLabelsFilter opts.labels (applyStateFilter opts.state pair.1), pair.2)

/-- The find-and-remove pipeline inside the try block of ServerBox.destroy. -/
def destroyRemoval (w : ProviderWorld) (m : ServerBoxMetadata) : Except JsError Unit :=
  match w.findSandbox m.sandboxId with
  | .error e => .error e
  | .ok sandbox => w.removeSandbox sandbox.id

/-- ServerBox.destroy: unknown ids are a no-op; a not-found failure of the
find-and-remove pipeline still deletes the record; any other failure is
rethrown through ServerBoxError.wrap under DAYTONA_API_ERROR before
store.delete runs, so the record is kept. The store is returned in both
outcomes to make the frame explicit. -/
def serverBoxDestroy (w : ProviderWorld) (st : MetaStore) (id : String) :
    Except JsError Unit × MetaStore :=
  match msGet st id with
  | none => (.ok (), st)
  | some m =>
    match destroyRemoval w m with
    | .ok _ => (.ok (), msDelete st id)
    | .error e =>
      if notFoundErr e then (.ok (), msDelete st id)
      else (.error (ServerBoxError.wrap .DAYTONA_API_ERROR e), st)

/- ------------------------------------------------------------------ -/
/- Resume coordinator (packages/proxy/src/auto-resume.ts)              -/
/- ------------------------------------------------------------------ -/

/-- Control point of one ensureRunning(id) caller. The phases mirror the
suspension points of the method: a task fetches the record (await get),
then in one synchronous block consults and updates the in-flight map, then
awaits the shared promise, and finally re-fetches and returns. -/
inductive TaskPhase
  | idle
  | fetched (observed : ServerBoxState)
  | joined (generation : Nat)
  | returnedEarly (returned : ServerBoxState)
  | failedDisabled
  | failedResume (generation : Nat)
  | finished (returned : ServerBoxState)
  deriving DecidableEq, Repr

/-- Shared state of the coordinator model for one instance id: the auto-resume
flag, whether the in-flight map has an entry, how many resume generations have
been started (this is the count of underlying resume(id) calls), which
generations settled successfully or failed, the current record state in the
store, and the phase of every task. -/
structure CoordState where
  autoResume : Bool
  inFlight : Bool
  resumeCalls : Nat
  settledOk : List Nat
  settledErr : List Nat
  recordState : ServerBoxState
  tasks : Nat → TaskPhase

/-- Scheduler events. fetch and check are per task; settleOk and settleErr
settle the one in-flight resume promise (a successful resume writes the
running record before the promise resolves, and the finally handler clears
the map slot either way); finish is the post-settle re-fetch of a joiner;
abort is the rejection a joiner observes after a failed resume. -/
inductive CoordEvent
  | fetch (k : Nat)
  | check (k : Nat)
  | settleOk
  | settleErr
  | finish (k : Nat)
  | abort (k : Nat)
  deriving DecidableEq, Repr

/-- Replace the phase of task k. -/
def setTask (tasks : Nat → TaskPhase) (k : Nat) (ph : TaskPhase) : Nat → TaskPhase :=
  fun j => if j = k then ph else tasks j

/-- One interleaving step; none marks an event that is not enabled in the
given state. check mirrors lines 32-56 of auto-resume.ts: an observed running
record returns it unchanged, a disabled auto-resume throws
INSTANCE_NOT_RUNNING, otherwise the task joins the in-flight promise or
creates it, the creation being the one place a resume(id) call starts. -/
def coordStep (s : CoordState) (ev : CoordEvent) : Option CoordState :=
  match ev with
  | .fetch k =>
    match s.tasks k with
    | .idle => some { s with tasks := setTask s.tasks k (.fetched s.recordState) }
    | _ => none
  | .check k =>
    match s.tasks k with
    | .fetched observed =>
      if observed = .running then
        some { s with tasks := setTask s.tasks k (.returnedEarly observed) }
      else if !s.autoResume then
        some { s with tasks := setTask s.tasks k .failedDisabled }
      else if s.inFlight then
        some { s with tasks := setTask s.tasks k (.joined s.resumeCalls) }
      else
        some { s with
          inFlight := true
          resumeCalls := s.resumeCalls + 1
          tasks := setTask s.tasks k (.joined (s.resumeCalls + 1)) }
    | _ => none
  | .settleOk =>
    if s.inFlight then
      some { s with
        inFlight := false
        recordState := .running
        settledOk := s.resumeCalls :: s.settledOk }
    else none
  | .settleErr =>
    if s.inFlight then
      some { s with inFlight := false, settledErr := s.resumeCalls :: s.settledErr }
    else none
  | .finish k =>
    match s.tasks k with
    | .joined g =>
      if g ∈ s.settledOk then
        some { s with tasks := setTask s.tasks k (.finished s.recordState) }
      else none
    | _ => none
  | .abort k =>
    match s.tasks k with
    | .joined g =>
      if g ∈ s.settledErr then
        some { s with tasks := setTask s.tasks k (.failedResume g) }
      else none
    | _ => none

/-- Run a schedule of events from a state; none if any event is not enabled. -/
def coordRun (s : CoordState) : List CoordEvent → Option CoordState
  | [] => some s
  | ev :: rest =>
    match coordStep s ev with
    | some s2 => coordRun s2 rest
    | none => none

/-- Initial state: auto-resume on, no resume in flight, a record in the given
state, and every caller still idle; a schedule mentioning tasks 0 to n - 1
models n concurrent ensureRunning calls. -/
def coordInit (s0 : ServerBoxState) : CoordState :=
  { autoResume := true
    inFlight := false
    resumeCalls := 0
    settledOk := []
    settledErr := []
    recordState := s0
    tasks := fun _ => .idle }

/-- Events that inspect or update the in-flight map slot. -/
def isCheck : CoordEvent → Bool
  | .check _ => true
  | _ => false

/-- Events that settle the in-flight resume promise. -/
def isSettle : CoordEvent → Bool
  | .settleOk => true
  | .settleErr => true
  | _ => false

/- ------------------------------------------------------------------ -/
/- Claim C3: proxy-key configuration semantics                         -/
/- ------------------------------------------------------------------ -/

/-- C3 counterexample: with the proxy key configured as the empty string,
proxy auth is NOT disabled; the constructor falls back to the admin key and a
request without the x-serverbox-proxy-key header is rejected, contrary to the
claim that every request is forwarded without requiring the header. -/
theorem C3_empty_key_counterexample :
    resolveProxyAuthConfig "admin-key" (.keyValue "") =
      .ok { adminApiKey := "admin-key", proxyApiKey := some "admin-key",
            proxyAuthDisabled := false } ∧
    ensureProxyAuth
      { adminApiKey := "admin-key", proxyApiKey := some "admin-key",
        proxyAuthDisabled := false } none = false :=
  ⟨by rfl, by rfl⟩

/-- C3 (amended): an empty-string proxy key does not disable proxy-route
authentication; it falls back to the admin key, so requests must carry
x-serverbox-proxy-key equal to the admin key. Only an explicit null disables
the gate, and an unset key likewise defaults to the admin key. -/
theorem C3_proxy_key_resolution (adminKey : String) (header : Option String)
    (h : ¬ adminKey = "") :
    resolveProxyAuthConfig adminKey (.keyValue "") =
      .ok { adminApiKey := adminKey, proxyApiKey := some adminKey,
            proxyAuthDisabled := false } ∧
    ensureProxyAuth
      { adminApiKey := adminKey, proxyApiKey := some adminKey,
        proxyAuthDisabled := false } header = checkApiKey header adminKey ∧
    resolveProxyAuthConfig adminKey .explicitNull =
      .ok { adminApiKey := adminKey, proxyApiKey := none, proxyAuthDisabled := true } ∧
    ensureProxyAuth
      { adminApiKey := adminKey, proxyApiKey := none, proxyAuthDisabled := true }
      header = true ∧
    resolveProxyAuthConfig adminKey .unset =
      .ok { adminApiKey := adminKey, proxyApiKey := some adminKey,
            proxyAuthDisabled := false } := by
  have htrim : jsTrim "" = "" := by decide
  refine ⟨?_, ?_, ?_, ?_, ?_⟩ <;>
    simp [resolveProxyAuthConfig, ensureProxyAuth, checkApiKey, htrim, h]

/-- C3 witness: the amended theorem applied at a concrete admin key and a
request without the header. -/
theorem C3_proxy_key_resolution_witness :
    resolveProxyAuthConfig "admin-key" (.keyValue "") =
      .ok { adminApiKey := "admin-key", proxyApiKey := some "admin-key",
            proxyAuthDisabled := false } ∧
    ensureProxyAuth
      { adminApiKey := "admin-key", proxyApiKey := some "admin-key",
        proxyAuthDisabled := false } none = checkApiKey none "admin-key" ∧
    resolveProxyAuthConfig "admin-key" .explicitNull =
      .ok { adminApiKey := "admin-key", proxyApiKey := none, proxyAuthDisabled := true } ∧
    ensureProxyAuth
      { adminApiKey := "admin-key", proxyApiKey := none, proxyAuthDisabled := true }
      none = true ∧
    resolveProxyAuthConfig "admin-key" .unset =
      .ok { adminApiKey := "admin-key", proxyApiKey := some "admin-key",
            proxyAuthDisabled := false } :=
  C3_proxy_key_resolution "admin-key" none (by decide)

/- ------------------------------------------------------------------ -/
/- Claim C4: create retry policy                                       -/
/- ------------------------------------------------------------------ -/

/-- C4 counterexample: with every attempt failing, the createSandbox retry
wrapper performs exactly 3 attempts in total, i.e. 2 retries beyond the
initial attempt, not the 3 retries beyond the initial attempt the claim
states (which would be 4 attempts). -/
theorem C4_retry_count_counterexample :
    (createSandboxRetry (fun _ => (Except.error 0 : Except Nat Nat)) (fun _ => 0)).attempts
      = 3 ∧
    ¬ (createSandboxRetry (fun _ => (Except.error 0 : Except Nat Nat)) (fun _ => 0)).attempts
      = 1 + 3 :=
  ⟨by rfl, by decide⟩

/-- C4 (amended): during create, createSandbox is attempted at most 3 times in
total (up to 2 retries beyond the initial attempt); every attempt before the
last one failed; only the outcome of the final attempt propagates; and the
sleep before retry k (0-based) is min(500ms * 2^k, 5000ms) plus a jitter drawn
below 150ms. -/
theorem C4_create_retry_behavior {E A : Type} (fn : Nat → Except E A)
    (jitter : Nat → Nat) (hjitter : ∀ k, jitter k ≤ 149) :
    1 ≤ (createSandboxRetry fn jitter).attempts ∧
    (createSandboxRetry fn jitter).attempts ≤ 3 ∧
    (∀ k, k + 1 < (createSandboxRetry fn jitter).attempts → ∃ e, fn k = .error e) ∧
    (createSandboxRetry fn jitter).result =
      (fn ((createSandboxRetry fn jitter).attempts - 1)).mapError some ∧
    (createSandboxRetry fn jitter).delays =
      (List.range ((createSandboxRetry fn jitter).attempts - 1)).map
        (fun k => min (500 * 2 ^ k) 5000 + jitter k) ∧
    (∀ d ∈ (createSandboxRetry fn jitter).delays,
      ∃ k, d = min (500 * 2 ^ k) 5000 + jitter k ∧ jitter k < 150) := by
  have hj0 : jitter 0 < 150 := Nat.lt_succ_of_le (hjitter 0)
  have hj1 : jitter 1 < 150 := Nat.lt_succ_of_le (hjitter 1)
  rcases h0 : fn 0 with e0 | a0
  · rcases h1 : fn 1 with e1 | a1
    · rcases h2 : fn 2 with e2 | a2
      · have ht : createSandboxRetry fn jitter =
            ⟨Except.error (some e2), 3, [500 + jitter 0, 1000 + jitter 1]⟩ := by
          simp only [createSandboxRetry, withRetry, retryGo, h0, h1, h2]
          norm_num
        rw [ht]
        refine ⟨by norm_num, by norm_num, ?_, ?_, ?_, ?_⟩
        · intro k hk
          have hk3 : k + 1 < 3 := hk
          have hk01 : k = 0 ∨ k = 1 := by omega
          rcases hk01 with rfl | rfl
          · exact ⟨e0, h0⟩
          · exact ⟨e1, h1⟩
        · show Except.error (some e2) = (fn 2).mapError some
          rw [h2]; rfl
        · show [500 + jitter 0, 1000 + jitter 1] = _
          norm_num [List.range_succ]
        · intro d hd
          rcases List.mem_cons.mp hd with rfl | hd
          · exact ⟨0, by norm_num, hj0⟩
          · rcases List.mem_cons.mp hd with rfl | hd
            · exact ⟨1, by norm_num, hj1⟩
            · cases hd
      · have ht : createSandboxRetry fn jitter =
            ⟨Except.ok a2, 3, [500 + jitter 0, 1000 + jitter 1]⟩ := by
          simp only [createSandboxRetry, withRetry, retryGo, h0, h1, h2]
          norm_num
        rw [ht]
        refine ⟨by norm_num, by norm_num, ?_, ?_, ?_, ?_⟩
        · intro k hk
          have hk3 : k + 1 < 3 := hk
          have hk01 : k = 0 ∨ k = 1 := by omega
          rcases hk01 with rfl | rfl
          · exact ⟨e0, h0⟩
          · exact ⟨e1, h1⟩
        · show Except.ok a2 = (fn 2).mapError some
          rw [h2]; rfl
        · show [500 + jitter 0, 1000 + jitter 1] = _
          norm_num [List.range_succ]
        · intro d hd
          rcases List.mem_cons.mp hd with rfl | hd
          · exact ⟨0, by norm_num, hj0⟩
          · rcases List.mem_cons.mp hd with rfl | hd
            · exact ⟨1, by norm_num, hj1⟩
            · cases hd
    · have ht : createSandboxRetry fn jitter = ⟨Except.ok a1, 2, [500 + jitter 0]⟩ := by
        simp only [createSandboxRetry, withRetry, retryGo, h0, h1]
        norm_num
      rw [ht]
      refine ⟨by norm_num, by norm_num, ?_, ?_, ?_, ?_⟩
      · intro k hk
        have hk2 : k + 1 < 2 := hk
        have hk0 : k = 0 := by omega
        subst hk0
        exact ⟨e0, h0⟩
      · show Except.ok a1 = (fn 1).mapError some
        rw [h1]; rfl
      · show [500 + jitter 0] = _
        norm_num [List.range_succ]
      · intro d hd
        rcases List.mem_cons.mp hd with rfl | hd
        · exact ⟨0, by norm_num, hj0⟩
        · cases hd
  · have ht : createSandboxRetry fn jitter = ⟨Except.ok a0, 1, []⟩ := by
      simp only [createSandboxRetry, withRetry, retryGo, h0]
    rw [ht]
    refine ⟨by norm_num, by norm_num, ?_, ?_, ?_, ?_⟩
    · intro k hk
      have hk1 : k + 1 < 1 := hk
      omega
    · show Except.ok a0 = (fn 0).mapError some
      rw [h0]; rfl
    · show ([] : List Nat) = _
      norm_num
    · intro d hd
      cases hd

/-- C4 witness: the amended theorem applied to an always-failing call with
zero jitter. -/
theorem C4_create_retry_behavior_witness :
    1 ≤ (createSandboxRetry (fun _ => (Except.error 7 : Except Nat Nat)) (fun _ => 0)).attempts ∧
    (createSandboxRetry (fun _ => (Except.error 7 : Except Nat Nat)) (fun _ => 0)).attempts ≤ 3 ∧
    (∀ k, k + 1 <
        (createSandboxRetry (fun _ => (Except.error 7 : Except Nat Nat)) (fun _ => 0)).attempts →
      ∃ e, (fun _ => (Except.error 7 : Except Nat Nat)) k = .error e) ∧
    (createSandboxRetry (fun _ => (Except.error 7 : Except Nat Nat)) (fun _ => 0)).result =
      ((fun _ => (Except.error 7 : Except Nat Nat))
        ((createSandboxRetry (fun _ => (Except.error 7 : Except Nat Nat)) (fun _ => 0)).attempts
          - 1)).mapError some ∧
    (createSandboxRetry (fun _ => (Except.error 7 : Except Nat Nat)) (fun _ => 0)).delays =
      (List.range
        ((createSandboxRetry (fun _ => (Except.error 7 : Except Nat Nat)) (fun _ => 0)).attempts
          - 1)).map (fun k => min (500 * 2 ^ k) 5000 + (fun _ => 0) k) ∧
    (∀ d ∈ (createSandboxRetry (fun _ => (Except.error 7 : Except Nat Nat)) (fun _ => 0)).delays,
      ∃ k, d = min (500 * 2 ^ k) 5000 + (fun _ => 0) k ∧ (fun _ => 0) k < 150) :=
  C4_create_retry_behavior (fun _ => (Except.error 7 : Except Nat Nat)) (fun _ => 0)
    (fun _ => by norm_num)

/- ------------------------------------------------------------------ -/
/- Claim C8: health poll timeout behavior                              -/
/- ------------------------------------------------------------------ -/

/-- When the poll loop throws after budget exhaustion and every check error
has the shape checkOpenCodeHealth produces, the thrown error carries the
HEALTH_CHECK_FAILED code. -/
lemma healthWaitGo_thrown_code {H : Type} (check : Nat → Except JsError H)
    (stepMs : Nat → Nat) (timeoutMs pollIntervalMs : Nat)
    (hcheck : ∀ i err, check i = .error err → healthCheckErrorShape err) :
    ∀ (fuel i now : Nat) (lastError : Option JsError),
      (lastError = none ∨ ∃ err, lastError = some err ∧ healthCheckErrorShape err) →
      ∀ (e : JsError) (checks : Nat),
        healthWaitGo check stepMs timeoutMs pollIntervalMs fuel i now lastError =
          .thrown e checks →
        ∃ b, e = .serverBox .HEALTH_CHECK_FAILED b := by
  intro fuel
  induction fuel with
  | zero =>
    intro i now lastError hlast e checks hrun
    rw [healthWaitGo] at hrun
    by_cases hlt : now < timeoutMs
    · simp only [hlt, if_true] at hrun
      cases hrun
    · simp only [hlt, if_false] at hrun
      cases hrun
      rcases hlast with rfl | ⟨err, rfl, hshape⟩
      · exact ⟨false, rfl⟩
      · rcases hshape with ⟨b, rfl⟩ | ⟨b, rfl⟩ | rfl
        · exact ⟨b, rfl⟩
        · exact ⟨b, rfl⟩
        · exact ⟨false, rfl⟩
  | succ fuel ih =>
    intro i now lastError hlast e checks hrun
    rw [healthWaitGo] at hrun
    by_cases hlt : now < timeoutMs
    · simp only [hlt, if_true] at hrun
      rcases hc : check i with err | payload
      · rw [hc] at hrun
        exact ih (i + 1) (now + stepMs i + pollIntervalMs) (some err)
          (Or.inr ⟨err, rfl, hcheck i err hc⟩) e checks hrun
      · rw [hc] at hrun
        cases hrun
    · simp only [hlt, if_false] at hrun
      cases hrun
      rcases hlast with rfl | ⟨err, rfl, hshape⟩
      · exact ⟨false, rfl⟩
      · rcases hshape with ⟨b, rfl⟩ | ⟨b, rfl⟩ | rfl
        · exact ⟨b, rfl⟩
        · exact ⟨b, rfl⟩
        · exact ⟨false, rfl⟩

/-- C8: a health poll with a zero timeout budget throws immediately: no
checkOpenCodeHealth call is performed and the raised error is the
HEALTH_CHECK_FAILED wrap of the absent last error. More generally, whenever
the budget is exhausted and the intermediate errors have the shape
checkOpenCodeHealth produces, the error thrown carries HEALTH_CHECK_FAILED. -/
theorem C8_health_poll_zero_timeout :
    (∀ (H : Type) (check : Nat → Except JsError H) (stepMs : Nat → Nat)
        (pollIntervalMs fuel : Nat),
      waitForOpenCodeHealth check stepMs 0 pollIntervalMs fuel =
        .thrown (.serverBox .HEALTH_CHECK_FAILED false) 0) ∧
    (∀ (H : Type) (check : Nat → Except JsError H) (stepMs : Nat → Nat)
        (timeoutMs pollIntervalMs fuel : Nat) (e : JsError) (checks : Nat),
      (∀ i err, check i = .error err → healthCheckErrorShape err) →
      waitForOpenCodeHealth check stepMs timeoutMs pollIntervalMs fuel =
        .thrown e checks →
      ∃ b, e = .serverBox .HEALTH_CHECK_FAILED b) := by
  constructor
  · intro H check stepMs pollIntervalMs fuel
    rw [waitForOpenCodeHealth, healthWaitGo.eq_def]
    simp [ServerBoxError.wrapOpt]
  · intro H check stepMs timeoutMs pollIntervalMs fuel e checks hcheck hrun
    exact healthWaitGo_thrown_code check stepMs timeoutMs pollIntervalMs hcheck
      fuel 0 0 none (Or.inl rfl) e checks hrun

/-- C8 witness: the theorem applied to a concrete failing checker at zero and
nonzero timeouts. -/
theorem C8_health_poll_zero_timeout_witness :
    waitForOpenCodeHealth (fun _ => (Except.error (.errObj false) : Except JsError Unit))
        (fun _ => 0) 0 1500 5 =
      .thrown (.serverBox .HEALTH_CHECK_FAILED false) 0 ∧
    ∃ b, (JsError.serverBox .HEALTH_CHECK_FAILED false) =
      .serverBox .HEALTH_CHECK_FAILED b := by
  constructor
  · exact C8_health_poll_zero_timeout.1 Unit
      (fun _ => (Except.error (.errObj false) : Except JsError Unit)) (fun _ => 0) 1500 5
  · exact C8_health_poll_zero_timeout.2 Unit
      (fun _ => (Except.error (.errObj false) : Except JsError Unit)) (fun _ => 0) 0 1500 5
      (.serverBox .HEALTH_CHECK_FAILED false) 0
      (fun i err h => by cases h; exact Or.inr (Or.inl ⟨false, rfl⟩))
      (C8_health_poll_zero_timeout.1 Unit
        (fun _ => (Except.error (.errObj false) : Except JsError Unit)) (fun _ => 0) 1500 5)

/- ------------------------------------------------------------------ -/
/- Claim C7: auth normalizer missing and invalid input                 -/
/- ------------------------------------------------------------------ -/

/-- The loop of normalizeProviderAuth fails with INVALID_CONFIG whenever any
entry has an empty trimmed provider or neither a truthy apiKey nor a
non-empty env. -/
lemma normalizeLoop_invalid :
    ∀ (entries : List ProviderAuth) (acc : List (String × ProviderAuth))
      (e : ProviderAuth),
      e ∈ entries →
      (jsTrim e.provider = "" ∨ (truthyStr e.apiKey = false ∧ hasKeys e.env = false)) →
      normalizeLoop entries acc = .error .INVALID_CONFIG := by
  intro entries
  induction entries with
  | nil => intro acc e he; cases he
  | cons entry rest ih =>
    intro acc e he hbad
    simp only [normalizeLoop]
    by_cases h1 : jsTrim entry.provider = ""
    · simp [h1]
    · simp only [h1, if_false]
      by_cases h2 : (!truthyStr entry.apiKey && !hasKeys entry.env) = true
      · simp [h2]
      · simp only [h2, if_false]
        rcases List.mem_cons.mp he with rfl | hmem
        · rcases hbad with hb | ⟨hb1, hb2⟩
          · exact absurd hb h1
          · exact absurd (by simp [hb1, hb2]) h2
        · exact ih _ e hmem hbad

/-- C7 counterexample: with OPENCODE_ZEN_API_KEY set to the empty string and
OPENCODE_API_KEY set to a usable key, normalizeProviderAuth without auth input
fails with MISSING_AUTH instead of synthesizing an opencode entry, because the
nullish coalescing picks the empty string and the truthiness check rejects it. -/
theorem C7_env_empty_zen_counterexample :
    normalizeProviderAuth .undef
      { OPENCODE_ZEN_API_KEY := some "", OPENCODE_API_KEY := some "zen-key" } =
      .error .MISSING_AUTH := by
  rfl

/-- C7 (amended): with no auth input, the normalizer looks at
OPENCODE_ZEN_API_KEY ?? OPENCODE_API_KEY; only when that picked value is a
non-empty string does it return the single entry with provider opencode and
that value as apiKey, and otherwise (both unset, or the picked value empty) it
fails with MISSING_AUTH. An explicit empty list fails with MISSING_AUTH, and
any entry with an empty trimmed provider, or with neither a truthy apiKey nor
a non-empty env map, fails with INVALID_CONFIG. -/
theorem C7_missing_and_invalid_auth :
    (∀ env : AuthEnv, truthyStr env.zenKey = false →
      normalizeProviderAuth .undef env = .error .MISSING_AUTH) ∧
    (∀ (env : AuthEnv) (zen : String), env.zenKey = some zen → ¬ zen = "" →
      normalizeProviderAuth .undef env =
        .ok [{ provider := "opencode", apiKey := some zen, env := none }]) ∧
    (∀ env : AuthEnv, normalizeProviderAuth (.list []) env = .error .MISSING_AUTH) ∧
    (∀ (entries : List ProviderAuth) (env : AuthEnv) (e : ProviderAuth),
      e ∈ entries →
      (jsTrim e.provider = "" ∨ (truthyStr e.apiKey = false ∧ hasKeys e.env = false)) →
      normalizeProviderAuth (.list entries) env = .error .INVALID_CONFIG) := by
  refine ⟨?_, ?_, ?_, ?_⟩
  · intro env htruthy
    rcases hz : env.zenKey with _ | zen
    · simp [normalizeProviderAuth, hz]
    · rw [hz] at htruthy
      simp only [truthyStr, Bool.not_eq_true'] at htruthy
      have hzempty : zen = "" := by simpa using htruthy
      simp [normalizeProviderAuth, hz, hzempty]
  · intro env zen hz hne
    simp [normalizeProviderAuth, hz, hne, DEFAULT_PROVIDER_ID]
  · intro env
    rfl
  · intro entries env e he hbad
    have hlen : ¬ entries.length = 0 := by
      cases entries
      · cases he
      · simp
    simp [normalizeProviderAuth, hlen, normalizeLoop_invalid entries [] e he hbad,
      Except.map]

/-- C7 witness: the amended theorem applied at concrete environments and
entry lists. -/
theorem C7_missing_and_invalid_auth_witness :
    normalizeProviderAuth .undef
      { OPENCODE_ZEN_API_KEY := none, OPENCODE_API_KEY := none } =
      .error .MISSING_AUTH ∧
    normalizeProviderAuth .undef
      { OPENCODE_ZEN_API_KEY := some "zen-key", OPENCODE_API_KEY := none } =
      .ok [{ provider := "opencode", apiKey := some "zen-key", env := none }] ∧
    normalizeProviderAuth (.list [])
      { OPENCODE_ZEN_API_KEY := none, OPENCODE_API_KEY := none } =
      .error .MISSING_AUTH ∧
    normalizeProviderAuth (.list [{ provider := "", apiKey := some "k", env := none }])
      { OPENCODE_ZEN_API_KEY := none, OPENCODE_API_KEY := none } =
      .error .INVALID_CONFIG :=
  ⟨C7_missing_and_invalid_auth.1 _ (by decide),
   C7_missing_and_invalid_auth.2.1 _ "zen-key" rfl (by decide),
   C7_missing_and_invalid_auth.2.2.1 _,
   C7_missing_and_invalid_auth.2.2.2 _ _
     { provider := "", apiKey := some "k", env := none }
     (List.mem_singleton.mpr rfl) (Or.inl (by decide))⟩

/- ------------------------------------------------------------------ -/
/- Claim C6: auth normalizer dedup keeps last occurrence               -/
/- ------------------------------------------------------------------ -/

/-- Append a key unless it is already present: one step of collecting keys in
first-appearance order. -/
def addFirst (acc : List String) (k : String) : List String :=
  if k ∈ acc then acc else acc ++ [k]

/-- The keys of a sequence in insertion order of their first appearance. -/
def firstAppearanceOrder (ks : List String) : List String :=
  ks.foldl addFirst []

/-- The last entry of the list whose trimmed provider is p. -/
def lastEntryFor (p : String) (entries : List ProviderAuth) : Option ProviderAuth :=
  entries.reverse.find? (fun e => jsTrim e.provider = p)

/-- First-match lookup in an association list. -/
def keyLookup {α : Type} : List (String × α) → String → Option α
  | [], _ => none
  | p :: rest, k => if p.1 = k then some p.2 else keyLookup rest k

/-- A key is in the key list exactly when some pair carries it. -/
lemma any_key_iff {α : Type} (l : List (String × α)) (k : String) :
    (l.any (fun p => p.1 = k) = true) ↔ k ∈ l.map Prod.fst := by
  induction l with
  | nil => simp
  | cons p rest ih =>
    simp only [List.any_cons, List.map_cons, List.mem_cons, Bool.or_eq_true, ih,
      decide_eq_true_eq]
    constructor
    · rintro (h | h)
      · exact Or.inl h.symm
      · exact Or.inr h
    · rintro (h | h)
      · exact Or.inl h.symm
      · exact Or.inr h

/-- Map.set keeps the keys when the key is present and appends it otherwise. -/
lemma jsMapSet_keys (m : List (String × ProviderAuth)) (k : String) (v : ProviderAuth) :
    (jsMapSet m k v).map Prod.fst = addFirst (m.map Prod.fst) k := by
  unfold jsMapSet addFirst
  by_cases hc : m.any (fun p => p.1 = k) = true
  · have hmem : k ∈ m.map Prod.fst := (any_key_iff m k).mp hc
    rw [if_pos hc, if_pos hmem, List.map_map]
    refine List.map_congr_left ?_
    intro p _
    by_cases hp : p.1 = k
    · simp [hp]
    · simp [hp]
  · have hmem : k ∉ m.map Prod.fst := fun h => hc ((any_key_iff m k).mpr h)
    rw [if_neg hc, if_neg hmem, List.map_append]
    rfl

/-- Lookup in a list whose keys were rewritten by Map.set on a present key. -/
lemma keyLookup_map_replace (k q : String) (v : ProviderAuth) :
    ∀ m : List (String × ProviderAuth),
      keyLookup (m.map (fun p => if p.1 = k then (k, v) else p)) q =
        if q = k then (if m.any (fun p => p.1 = k) = true then some v else none)
        else keyLookup m q := by
  intro m
  induction m with
  | nil =>
    simp [keyLookup]
  | cons p rest ih =>
    simp only [List.map_cons, List.any_cons, Bool.or_eq_true, decide_eq_true_eq]
    by_cases hp : p.1 = k
    · rw [if_pos hp]
      show (if k = q then some v else _) = _
      by_cases hq : q = k
      · rw [if_pos (hq ▸ rfl : k = q), if_pos hq, if_pos (Or.inl hp)]
      · rw [if_neg (fun h : k = q => hq h.symm), ih, if_neg hq, if_neg hq, keyLookup,
          if_neg (fun h : p.1 = q => hq (h ▸ hp))]
    · rw [if_neg hp]
      show (if p.1 = q then some p.2 else _) = _
      by_cases hpq : p.1 = q
      · have hq : ¬ q = k := fun h => hp (by rw [hpq, h])
        rw [if_pos hpq, if_neg hq, keyLookup, if_pos hpq]
      · rw [if_neg hpq, ih, keyLookup, if_neg hpq]
        by_cases hq : q = k
        · rw [if_pos hq, if_pos hq]
          have : ((p.1 = k) ∨ rest.any (fun p => p.1 = k) = true) ↔
              rest.any (fun p => p.1 = k) = true := by
            constructor
            · rintro (h | h)
              · exact absurd h hp
              · exact h
            · exact Or.inr
          by_cases hrest : rest.any (fun p => p.1 = k) = true
          · rw [if_pos hrest, if_pos (this.mpr hrest)]
          · rw [if_neg hrest, if_neg (fun h => hrest (this.mp h))]
        · rw [if_neg hq, if_neg hq]

/-- Lookup after appending one pair at the end. -/
lemma keyLookup_append_one (k q : String) (v : ProviderAuth) :
    ∀ m : List (String × ProviderAuth),
      keyLookup (m ++ [(k, v)]) q =
        (keyLookup m q).or (if k = q then some v else none) := by
  intro m
  induction m with
  | nil =>
    simp only [List.nil_append, keyLookup, Option.none_or]
  | cons p rest ih =>
    simp only [List.cons_append, keyLookup]
    by_cases hpq : p.1 = q
    · rw [if_pos hpq, if_pos hpq]
      rfl
    · rw [if_neg hpq, if_neg hpq]
      exact ih

/-- Lookup of an absent key. -/
lemma keyLookup_eq_none (q : String) :
    ∀ m : List (String × ProviderAuth), q ∉ m.map Prod.fst → keyLookup m q = none := by
  intro m
  induction m with
  | nil => intro _; rfl
  | cons p rest ih =>
    intro hq
    have h1 : ¬ p.1 = q := by
      intro h
      exact hq (by simp [h])
    rw [keyLookup, if_neg h1]
    refine ih ?_
    intro h
    exact hq (by simp [h])

/-- Lookup after Map.set: the written key maps to the new value, others are
untouched. -/
lemma keyLookup_jsMapSet (m : List (String × ProviderAuth)) (k : String)
    (v : ProviderAuth) (q : String) :
    keyLookup (jsMapSet m k v) q = if q = k then some v else keyLookup m q := by
  unfold jsMapSet
  by_cases hc : m.any (fun p => p.1 = k) = true
  · rw [if_pos hc, keyLookup_map_replace, if_pos hc]
  · rw [if_neg hc, keyLookup_append_one]
    by_cases hq : q = k
    · subst hq
      rw [keyLookup_eq_none q m (fun h => hc ((any_key_iff m q).mpr h))]
      simp
    · rw [if_neg (fun h : k = q => hq h.symm), if_neg hq, Option.or_none]

/-- addFirst preserves distinctness of the collected keys. -/
lemma addFirst_nodup (acc : List String) (k : String) (h : acc.Nodup) :
    (addFirst acc k).Nodup := by
  unfold addFirst
  by_cases hk : k ∈ acc
  · rwa [if_pos hk]
  · rw [if_neg hk]
    simp [List.nodup_append, h, hk]

/-- Folding addFirst over any key sequence keeps the accumulator distinct. -/
lemma foldl_addFirst_nodup (ks : List String) :
    ∀ acc : List String, acc.Nodup → (ks.foldl addFirst acc).Nodup := by
  induction ks with
  | nil => intro acc h; exact h
  | cons k rest ih =>
    intro acc h
    rw [List.foldl_cons]
    exact ih _ (addFirst_nodup acc k h)

/-- The first-appearance key order is duplicate-free. -/
lemma firstAppearanceOrder_nodup (ks : List String) : (firstAppearanceOrder ks).Nodup :=
  foldl_addFirst_nodup ks [] List.nodup_nil

/-- Every pair of the normalizer map stores an entry whose provider is its
key. -/
def PairsCoherent (m : List (String × ProviderAuth)) : Prop :=
  ∀ p ∈ m, p.2.provider = p.1

/-- Map.set with a coherent value preserves coherence. -/
lemma jsMapSet_coherent (m : List (String × ProviderAuth)) (k : String)
    (v : ProviderAuth) (hv : v.provider = k) (h : PairsCoherent m) :
    PairsCoherent (jsMapSet m k v) := by
  unfold jsMapSet
  by_cases hc : m.any (fun p => p.1 = k) = true
  · rw [if_pos hc]
    intro p hp
    rcases List.mem_map.mp hp with ⟨p0, hp0, rfl⟩
    by_cases hp0k : p0.1 = k
    · simp [hp0k, hv]
    · simp only [if_neg hp0k]
      exact h p0 hp0
  · rw [if_neg hc]
    intro p hp
    rcases List.mem_append.mp hp with hp | hp
    · exact h p hp
    · rcases List.mem_singleton.mp hp with rfl
      exact hv

/-- If a pair belongs to a list with distinct keys, lookup of its key gives
its value. -/
lemma keyLookup_of_mem :
    ∀ (m : List (String × ProviderAuth)) (pr : String × ProviderAuth),
      (m.map Prod.fst).Nodup → pr ∈ m → keyLookup m pr.1 = some pr.2 := by
  intro m
  induction m with
  | nil => intro pr _ hmem; cases hmem
  | cons p rest ih =>
    intro pr hnodup hmem
    rw [List.map_cons, List.nodup_cons] at hnodup
    rcases List.mem_cons.mp hmem with rfl | hmem
    · rw [keyLookup, if_pos rfl]
    · have hne : ¬ p.1 = pr.1 := by
        intro h
        exact hnodup.1 (h ▸ List.mem_map.mpr ⟨pr, hmem, rfl⟩)
      rw [keyLookup, if_neg hne]
      exact ih pr hnodup.2 hmem

/-- Unfolding of the last matching entry over a cons. -/
lemma lastEntryFor_cons (q : String) (entry : ProviderAuth)
    (rest : List ProviderAuth) :
    lastEntryFor q (entry :: rest) =
      (lastEntryFor q rest).or
        (if jsTrim entry.provider = q then some entry else none) := by
  unfold lastEntryFor
  rw [List.reverse_cons, List.find?_append]
  by_cases hq : jsTrim entry.provider = q
  · simp [List.find?, hq]
  · simp [List.find?, hq]

/-- Core specification of the normalizer loop: on success, the keys of the
produced map list every distinct trimmed provider at the position of its
first appearance, every key maps to the normalized copy of its last matching
entry (falling back to the incoming accumulator), and coherence of the
accumulator is preserved. -/
lemma normalizeLoop_ok_spec :
    ∀ (entries : List ProviderAuth) (acc m : List (String × ProviderAuth)),
      normalizeLoop entries acc = .ok m →
      (m.map Prod.fst =
        (entries.map (fun e => jsTrim e.provider)).foldl addFirst (acc.map Prod.fst)) ∧
      (∀ q, keyLookup m q =
        ((lastEntryFor q entries).map normalizeEntry).or (keyLookup acc q)) ∧
      (PairsCoherent acc → PairsCoherent m) := by
  intro entries
  induction entries with
  | nil =>
    intro acc m hok
    cases hok
    refine ⟨rfl, ?_, fun h => h⟩
    intro q
    simp [lastEntryFor, List.find?]
  | cons entry rest ih =>
    intro acc m hok
    simp only [normalizeLoop] at hok
    by_cases h1 : jsTrim entry.provider = ""
    · rw [if_pos h1] at hok
      cases hok
    · rw [if_neg h1] at hok
      by_cases h2 : (!truthyStr entry.apiKey && !hasKeys entry.env) = true
      · rw [if_pos h2] at hok
        cases hok
      · rw [if_neg h2] at hok
        set t := jsTrim entry.provider with ht
        set v : ProviderAuth :=
          { provider := t, apiKey := entry.apiKey, env := entry.env } with hv
        obtain ⟨hkeys, hlook, hcoh⟩ := ih (jsMapSet acc t v) m hok
        refine ⟨?_, ?_, ?_⟩
        · rw [hkeys, List.map_cons, List.foldl_cons, jsMapSet_keys]
        · intro q
          rw [hlook q, lastEntryFor_cons, keyLookup_jsMapSet]
          have hnorm : normalizeEntry entry = v := rfl
          by_cases hq : q = t
          · rw [if_pos hq, if_pos hq.symm]
            cases hrest : lastEntryFor q rest with
            | none => simp [hnorm]
            | some src => simp
          · rw [if_neg hq, if_neg (fun h : t = q => hq h.symm)]
            cases hrest : lastEntryFor q rest with
            | none => simp
            | some src => simp
        · intro hacc
          exact hcoh (jsMapSet_coherent acc t v rfl hacc)

/-- Folding the buildAuthRecord step over entries with distinct providers
appends exactly the truthy-apiKey pairs, in order. -/
lemma buildAuthRecord_fold_eq :
    ∀ (entries : List ProviderAuth) (acc : List (String × String)),
      (entries.map (fun e => e.provider)).Nodup →
      (∀ e ∈ entries, acc.any (fun p => p.1 = e.provider) = false) →
      entries.foldl
        (fun acc entry =>
          if truthyStr entry.apiKey then
            jsObjSet acc entry.provider (entry.apiKey.getD "")
          else acc) acc =
      acc ++ entries.filterMap
        (fun e =>
          if truthyStr e.apiKey then some (e.provider, e.apiKey.getD "") else none) := by
  intro entries
  induction entries with
  | nil =>
    intro acc _ _
    simp
  | cons e rest ih =>
    intro acc hnodup hacc
    rw [List.map_cons, List.nodup_cons] at hnodup
    rw [List.foldl_cons, List.filterMap_cons]
    by_cases htr : truthyStr e.apiKey = true
    · rw [if_pos htr, if_pos htr]
      have hanyf : acc.any (fun p => p.1 = e.provider) = false :=
        hacc e (List.mem_cons_self e rest)
      have hstep : jsObjSet acc e.provider (e.apiKey.getD "") =
          acc ++ [(e.provider, e.apiKey.getD "")] := by
        unfold jsObjSet
        rw [if_neg (by rw [hanyf]; exact Bool.false_ne_true)]
      rw [hstep, ih (acc ++ [(e.provider, e.apiKey.getD "")]) hnodup.2 ?hrest,
        List.append_assoc, List.singleton_append]
      case hrest =>
        intro e2 he2
        rw [List.any_append]
        have h1 : acc.any (fun p => p.1 = e2.provider) = false :=
          hacc e2 (List.mem_cons_of_mem e he2)
        have h2 : ¬ e.provider = e2.provider := by
          intro h
          exact hnodup.1 (h ▸ List.mem_map.mpr ⟨e2, he2, rfl⟩)
        simp [h1, h2]
    · rw [if_neg htr, if_neg htr]
      exact ih acc hnodup.2 (fun e2 he2 => hacc e2 (List.mem_cons_of_mem e he2))

/-- C6: on a successful normalization of an entries array, the output lists
each provider at the insertion position of its first appearance, every output
entry is the normalized copy of the last input entry with that provider, and
buildAuthRecord maps each output provider to its (last) apiKey while skipping
entries without a truthy apiKey. -/
theorem C6_dedup_keeps_last :
    ∀ (entries : List ProviderAuth) (env : AuthEnv) (out : List ProviderAuth),
      normalizeProviderAuth (.list entries) env = .ok out →
      out.map (fun e => e.provider) =
        firstAppearanceOrder (entries.map (fun e => jsTrim e.provider)) ∧
      (∀ e ∈ out, (lastEntryFor e.provider entries).map normalizeEntry = some e) ∧
      buildAuthRecord out =
        out.filterMap
          (fun e =>
            if truthyStr e.apiKey then some (e.provider, e.apiKey.getD "") else none) := by
  intro entries env out hok
  simp only [normalizeProviderAuth] at hok
  by_cases hlen : entries.length = 0
  · rw [if_pos hlen] at hok
    cases hok
  · rw [if_neg hlen] at hok
    cases hloop : normalizeLoop entries [] with
    | error err =>
      rw [hloop] at hok
      cases hok
    | ok m =>
      rw [hloop] at hok
      have hout : out = m.map Prod.snd := by
        cases hok
        rfl
      obtain ⟨hkeys, hlook, hcoh⟩ := normalizeLoop_ok_spec entries [] m hloop
      have hcoh2 : PairsCoherent m := hcoh (fun p hp => absurd hp (List.not_mem_nil p))
      have hfst : m.map (fun p => p.2.provider) = m.map Prod.fst :=
        List.map_congr_left (fun p hp => hcoh2 p hp)
      have hkeysfao : m.map Prod.fst =
          firstAppearanceOrder (entries.map (fun e => jsTrim e.provider)) := by
        rw [hkeys]
        rfl
      have houtprov : out.map (fun e => e.provider) =
          firstAppearanceOrder (entries.map (fun e => jsTrim e.provider)) := by
        rw [hout, List.map_map]
        rw [show ((fun e : ProviderAuth => e.provider) ∘ Prod.snd) =
          (fun p : String × ProviderAuth => p.2.provider) from rfl]
        rw [hfst, hkeysfao]
      have hnodupkeys : (m.map Prod.fst).Nodup := by
        rw [hkeysfao]
        exact firstAppearanceOrder_nodup _
      refine ⟨houtprov, ?_, ?_⟩
      · intro e he
        rw [hout] at he
        rcases List.mem_map.mp he with ⟨pr, hpr, rfl⟩
        have heq : keyLookup m pr.1 = some pr.2 := keyLookup_of_mem m pr hnodupkeys hpr
        have hl := hlook pr.1
        rw [heq] at hl
        simp only [keyLookup, Option.or_none] at hl
        rw [hcoh2 pr hpr]
        exact hl.symm
      · have hnodupout : (out.map (fun e => e.provider)).Nodup := by
          rw [houtprov]
          exact firstAppearanceOrder_nodup _
        have := buildAuthRecord_fold_eq out [] hnodupout (fun e _ => rfl)
        rw [buildAuthRecord, this, List.nil_append]

/-- C6 witness: the theorem applied to the duplicate-provider example of the
test suite. -/
theorem C6_dedup_keeps_last_witness :
    ([{ provider := "opencode", apiKey := some "new", env := none },
      { provider := "openai", apiKey := some "x", env := none }] :
        List ProviderAuth).map (fun e => e.provider) =
      firstAppearanceOrder
        (([{ provider := "opencode", apiKey := some "old", env := none },
           { provider := "opencode", apiKey := some "new", env := none },
           { provider := "openai", apiKey := some "x", env := none }] :
            List ProviderAuth).map (fun e => jsTrim e.provider)) ∧
    (∀ e ∈ ([{ provider := "opencode", apiKey := some "new", env := none },
             { provider := "openai", apiKey := some "x", env := none }] :
              List ProviderAuth),
      (lastEntryFor e.provider
        [{ provider := "opencode", apiKey := some "old", env := none },
         { provider := "opencode", apiKey := some "new", env := none },
         { provider := "openai", apiKey := some "x", env := none }]).map normalizeEntry =
        some e) ∧
    buildAuthRecord
        [{ provider := "opencode", apiKey := some "new", env := none },
         { provider := "openai", apiKey := some "x", env := none }] =
      ([{ provider := "opencode", apiKey := some "new", env := none },
        { provider := "openai", apiKey := some "x", env := none }] :
          List ProviderAuth).filterMap
        (fun e =>
          if truthyStr e.apiKey then some (e.provider, e.apiKey.getD "") else none) :=
  C6_dedup_keeps_last
    [{ provider := "opencode", apiKey := some "old", env := none },
     { provider := "opencode", apiKey := some "new", env := none },
     { provider := "openai", apiKey := some "x", env := none }]
    { OPENCODE_ZEN_API_KEY := none, OPENCODE_API_KEY := none }
    [{ provider := "opencode", apiKey := some "new", env := none },
     { provider := "openai", apiKey := some "x", env := none }]
    (by decide)

/- ------------------------------------------------------------------ -/
/- Claim C9: store round-trip                                          -/
/- ------------------------------------------------------------------ -/

/-- Hex digits encode and decode to themselves. -/
lemma hexVal_hexDigitChar : ∀ n : Nat, n < 16 → hexVal (hexDigitChar n) = some n := by
  decide

/-- Unfolding: a closing quote ends the string body. -/
lemma psb_quote (l : List Char) : parseStringBody ('"' :: l) = some ([], l) := by
  conv_lhs => rw [parseStringBody.eq_def]
  rfl

/-- Unfolding: an unescaped ordinary character is consumed verbatim. -/
lemma psb_other (c : Char) (hc1 : ¬ c = '"') (hc2 : ¬ c = '\\') (l : List Char) :
    parseStringBody (c :: l) = (parseStringBody l).map (fun p => (c :: p.1, p.2)) := by
  conv_lhs => rw [parseStringBody.eq_def]
  simp only [hc1, hc2, if_false]
  cases parseStringBody l <;> rfl

/-- Unfolding: a single-character escape decodes through unescapeCode. -/
lemma psb_esc (e d : Char) (he : ¬ e = 'u') (hd : unescapeCode e = some d)
    (l : List Char) :
    parseStringBody ('\\' :: e :: l) =
      (parseStringBody l).map (fun p => (d :: p.1, p.2)) := by
  conv_lhs => rw [parseStringBody.eq_def]
  simp [he, hd]
  cases parseStringBody l <;> rfl

/-- Unfolding: a unicode escape decodes its four hex digits. -/
lemma psb_u (h1 h2 h3 h4 : Char) (a b c2 d : Nat) (ha : hexVal h1 = some a)
    (hb : hexVal h2 = some b) (hc : hexVal h3 = some c2) (hdd : hexVal h4 = some d)
    (l : List Char) :
    parseStringBody ('\\' :: 'u' :: h1 :: h2 :: h3 :: h4 :: l) =
      (parseStringBody l).map
        (fun p => (Char.ofNat (((a * 16 + b) * 16 + c2) * 16 + d) :: p.1, p.2)) := by
  conv_lhs => rw [parseStringBody.eq_def]
  simp [ha, hb, hc, hdd]
  cases parseStringBody l <;> rfl

/-- Parsing the escape of one character prepends that character. -/
lemma parseStringBody_escape (c : Char) (l : List Char) :
    parseStringBody (escapeJsonChar c ++ l) =
      (parseStringBody l).map (fun p => (c :: p.1, p.2)) := by
  by_cases h1 : c = '"'
  · subst h1
    exact psb_esc '"' '"' (by decide) rfl l
  · by_cases h2 : c = '\\'
    · subst h2
      exact psb_esc '\\' '\\' (by decide) rfl l
    · by_cases h3 : c = '\x08'
      · subst h3
        exact psb_esc 'b' '\x08' (by decide) rfl l
      · by_cases h4 : c = '\x09'
        · subst h4
          exact psb_esc 't' '\x09' (by decide) rfl l
        · by_cases h5 : c = '\x0a'
          · subst h5
            exact psb_esc 'n' '\x0a' (by decide) rfl l
          · by_cases h6 : c = '\x0c'
            · subst h6
              exact psb_esc 'f' '\x0c' (by decide) rfl l
            · by_cases h7 : c = '\x0d'
              · subst h7
                exact psb_esc 'r' '\x0d' (by decide) rfl l
              · by_cases h8 : c.toNat < 32
                · have hesc : escapeJsonChar c =
                      ['\\', 'u', '0', '0', hexDigitChar (c.toNat / 16),
                       hexDigitChar (c.toNat % 16)] := by
                    simp only [escapeJsonChar, h1, h2, h3, h4, h5, h6, h7, h8,
                      if_false, if_pos]
                  have hd1 : c.toNat / 16 < 16 := by omega
                  have hd2 : c.toNat % 16 < 16 := Nat.mod_lt _ (by norm_num)
                  rw [hesc]
                  show parseStringBody
                    ('\\' :: 'u' :: '0' :: '0' :: hexDigitChar (c.toNat / 16) ::
                      hexDigitChar (c.toNat % 16) :: l) = _
                  rw [psb_u '0' '0' (hexDigitChar (c.toNat / 16))
                    (hexDigitChar (c.toNat % 16)) 0 0 (c.toNat / 16) (c.toNat % 16)
                    rfl rfl (hexVal_hexDigitChar _ hd1) (hexVal_hexDigitChar _ hd2) l]
                  have hchar : Char.ofNat
                      (((0 * 16 + 0) * 16 + c.toNat / 16) * 16 + c.toNat % 16) = c := by
                    rw [show ((0 * 16 + 0) * 16 + c.toNat / 16) * 16 + c.toNat % 16 =
                      c.toNat by omega, Char.ofNat_toNat]
                  rw [hchar]
                · have hesc : escapeJsonChar c = [c] := by
                    simp only [escapeJsonChar, h1, h2, h3, h4, h5, h6, h7, h8, if_false]
                  rw [hesc]
                  exact psb_other c h1 h2 l

/-- Parsing the escaped characters of a whole string prepends them all. -/
lemma parseStringBody_escape_list (cs : List Char) (l : List Char) :
    parseStringBody (cs.flatMap escapeJsonChar ++ l) =
      (parseStringBody l).map (fun p => (cs ++ p.1, p.2)) := by
  induction cs with
  | nil =>
    cases hl : parseStringBody l <;> simp [hl]
  | cons c rest ih =>
    rw [List.flatMap_cons, List.append_assoc, parseStringBody_escape, ih]
    cases hl : parseStringBody l <;> simp [hl]

/-- A JSON string literal parses back to the encoded string, leaving the
remaining input untouched. -/
lemma parseJsonString_encode (s : String) (l : List Char) :
    parseJsonString (encodeJsonStringChars s ++ l) = some (s.data, l) := by
  show parseStringBody ((s.data.flatMap escapeJsonChar ++ ['"']) ++ l) = some (s.data, l)
  rw [List.append_assoc, List.singleton_append, parseStringBody_escape_list, psb_quote]
  simp

/-- An encoded string literal spans at least its two quotes. -/
lemma encodeJsonStringChars_len (s : String) : 2 ≤ (encodeJsonStringChars s).length := by
  show 2 ≤ ('"' :: (s.data.flatMap escapeJsonChar ++ ['"'])).length
  simp

/-- The items after the first parse back, consuming the closing bracket. -/
lemma parseListRestGo_tail :
    ∀ (xs : List String) (fuel : Nat) (l : List Char), xs.length ≤ fuel →
      parseListRestGo fuel (encodeItemsTail xs ++ ']' :: l) = some (xs, l) := by
  intro xs
  induction xs with
  | nil =>
    intro fuel l _
    show parseListRestGo fuel (']' :: l) = some ([], l)
    cases fuel <;> simp [parseListRestGo]
  | cons x rest ih =>
    intro fuel l hfuel
    cases fuel with
    | zero => simp at hfuel
    | succ f =>
      have hlist : encodeItemsTail (x :: rest) ++ ']' :: l =
          ',' :: (encodeJsonStringChars x ++ (encodeItemsTail rest ++ ']' :: l)) := by
        simp [encodeItemsTail, List.append_assoc]
      rw [hlist]
      show (do
          let (s, r) ← parseJsonString
            (encodeJsonStringChars x ++ (encodeItemsTail rest ++ ']' :: l))
          let (items, r2) ← parseListRestGo f r
          pure (String.mk s :: items, r2)) = some (x :: rest, l)
      rw [parseJsonString_encode x (encodeItemsTail rest ++ ']' :: l)]
      show (do
          let (items, r2) ← parseListRestGo f (encodeItemsTail rest ++ ']' :: l)
          pure (String.mk x.data :: items, r2)) = some (x :: rest, l)
      rw [ih f l (by simpa using Nat.le_of_succ_le_succ hfuel)]
      rfl

/-- The comma-separated tail is at least as long as its item count. -/
lemma encodeItemsTail_len (xs : List String) : xs.length ≤ (encodeItemsTail xs).length := by
  induction xs with
  | nil => simp [encodeItemsTail]
  | cons x rest ih =>
    have := encodeJsonStringChars_len x
    simp only [encodeItemsTail, List.flatMap_cons] at *
    simp only [List.length_cons, List.length_append, List.length_cons]
    omega

/-- C9 core, providers column: the JSON string array round-trips. -/
lemma parseJsonStringList_encode (xs : List String) :
    parseJsonStringList (encodeJsonStringList xs) = some xs := by
  cases xs with
  | nil => rfl
  | cons x rest =>
    have hdata : encodeJsonStringList (x :: rest) =
        ⟨'[' :: (encodeJsonStringChars x ++ (encodeItemsTail rest ++ [']']))⟩ := by
      simp [encodeJsonStringList, List.append_assoc]
    rw [hdata]
    show (do
        let (s, r) ← parseJsonString
          (encodeJsonStringChars x ++ (encodeItemsTail rest ++ [']']))
        let (items, r2) ← parseListRestGo r.length r
        if r2 = [] then pure (String.mk s :: items) else none) = some (x :: rest)
    rw [parseJsonString_encode x (encodeItemsTail rest ++ [']'])]
    show (do
        let (items, r2) ← parseListRestGo (encodeItemsTail rest ++ [']']).length
          (encodeItemsTail rest ++ [']'])
        if r2 = [] then pure (String.mk x.data :: items) else none) = some (x :: rest)
    have hfuel : rest.length ≤ (encodeItemsTail rest ++ [']']).length := by
      have := encodeItemsTail_len rest
      simp only [List.length_append, List.length_cons, List.length_nil]
      omega
    rw [show encodeItemsTail rest ++ [']'] = encodeItemsTail rest ++ ']' :: [] from rfl,
      parseListRestGo_tail rest _ [] hfuel]
    rfl

/-- An encoded key-value pair parses back, leaving the remaining input. -/
lemma parseJsonPair_encode (p : String × String) (l : List Char) :
    parseJsonPair (encodePairChars p ++ l) = some (p, l) := by
  have harr : encodePairChars p ++ l =
      encodeJsonStringChars p.1 ++ (':' :: (encodeJsonStringChars p.2 ++ l)) := by
    simp [encodePairChars, List.append_assoc]
  rw [harr]
  show (do
      let (k, r) ← parseJsonString
        (encodeJsonStringChars p.1 ++ (':' :: (encodeJsonStringChars p.2 ++ l)))
      match r with
      | c :: r2 =>
        if c = ':' then do
          let (v, r3) ← parseJsonString r2
          pure ((String.mk k, String.mk v), r3)
        else none
      | [] => none) = some (p, l)
  rw [parseJsonString_encode p.1 (':' :: (encodeJsonStringChars p.2 ++ l))]
  show (do
      let (v, r3) ← parseJsonString (encodeJsonStringChars p.2 ++ l)
      pure ((String.mk p.1.data, String.mk v), r3)) = some (p, l)
  rw [parseJsonString_encode p.2 l]
  rfl

/-- The pairs after the first parse back, consuming the closing brace. -/
lemma parseMapRestGo_tail :
    ∀ (kvs : List (String × String)) (fuel : Nat) (l : List Char),
      kvs.length ≤ fuel →
      parseMapRestGo fuel (encodePairsTail kvs ++ Char.ofNat 125 :: l) = some (kvs, l) := by
  intro kvs
  induction kvs with
  | nil =>
    intro fuel l _
    show parseMapRestGo fuel (Char.ofNat 125 :: l) = some ([], l)
    cases fuel <;> simp [parseMapRestGo]
  | cons p rest ih =>
    intro fuel l hfuel
    cases fuel with
    | zero => simp at hfuel
    | succ f =>
      have hlist : encodePairsTail (p :: rest) ++ Char.ofNat 125 :: l =
          ',' :: (encodePairChars p ++ (encodePairsTail rest ++ Char.ofNat 125 :: l)) := by
        simp [encodePairsTail, List.append_assoc]
      rw [hlist]
      show (do
          let (q, r) ← parseJsonPair
            (encodePairChars p ++ (encodePairsTail rest ++ Char.ofNat 125 :: l))
          let (items, r2) ← parseMapRestGo f r
          pure (q :: items, r2)) = some (p :: rest, l)
      rw [parseJsonPair_encode p (encodePairsTail rest ++ Char.ofNat 125 :: l)]
      show (do
          let (items, r2) ← parseMapRestGo f (encodePairsTail rest ++ Char.ofNat 125 :: l)
          pure (p :: items, r2)) = some (p :: rest, l)
      rw [ih f l (by simpa using Nat.le_of_succ_le_succ hfuel)]
      rfl

/-- The encoded pair tail is at least as long as its pair count. -/
lemma encodePairsTail_len (kvs : List (String × String)) :
    kvs.length ≤ (encodePairsTail kvs).length := by
  induction kvs with
  | nil => simp [encodePairsTail]
  | cons p rest ih =>
    have h1 := encodeJsonStringChars_len p.1
    have hstep : encodePairsTail (p :: rest) =
        ',' :: (encodePairChars p ++ encodePairsTail rest) := by
      simp [encodePairsTail]
    rw [hstep]
    simp only [List.length_cons, List.length_append]
    omega

/-- C9 core, labels column: the JSON string object round-trips. -/
lemma parseJsonStringMap_encode (kvs : List (String × String)) :
    parseJsonStringMap (encodeJsonStringMap kvs) = some kvs := by
  cases kvs with
  | nil => rfl
  | cons p rest =>
    have hdata : encodeJsonStringMap (p :: rest) =
        ⟨Char.ofNat 123 ::
          (encodePairChars p ++ (encodePairsTail rest ++ [Char.ofNat 125]))⟩ := by
      simp [encodeJsonStringMap, List.append_assoc]
    rw [hdata]
    show (do
        let (q, r) ← parseJsonPair
          (encodePairChars p ++ (encodePairsTail rest ++ [Char.ofNat 125]))
        let (items, r2) ← parseMapRestGo r.length r
        if r2 = [] then pure (q :: items) else none) = some (p :: rest)
    rw [parseJsonPair_encode p (encodePairsTail rest ++ [Char.ofNat 125])]
    show (do
        let (items, r2) ← parseMapRestGo (encodePairsTail rest ++ [Char.ofNat 125]).length
          (encodePairsTail rest ++ [Char.ofNat 125])
        if r2 = [] then pure (p :: items) else none) = some (p :: rest)
    have hfuel : rest.length ≤ (encodePairsTail rest ++ [Char.ofNat 125]).length := by
      have := encodePairsTail_len rest
      simp only [List.length_append, List.length_cons, List.length_nil]
      omega
    rw [show encodePairsTail rest ++ [Char.ofNat 125] =
        encodePairsTail rest ++ Char.ofNat 125 :: [] from rfl,
      parseMapRestGo_tail rest _ [] hfuel]
    rfl

/-- The persisted state spelling normalizes back to the same state. -/
lemma normalizeState_toText (s : ServerBoxState) : normalizeState s.toText = s := by
  cases s <;> decide

/-- The providers column never stores a falsy string and parses back. -/
lemma safeParseJsonList_encode (xs : List String) :
    safeParseJsonList (encodeJsonStringList xs) [] = xs := by
  have hne : ¬ encodeJsonStringList xs = "" := by
    cases xs with
    | nil => decide
    | cons x rest =>
      intro h
      have := congrArg String.data h
      simp [encodeJsonStringList] at this
  rw [safeParseJsonList, if_neg hne, parseJsonStringList_encode]
  rfl

/-- The labels column never stores a falsy string and parses back. -/
lemma safeParseJsonMap_encode (kvs : List (String × String)) :
    safeParseJsonMap (encodeJsonStringMap kvs) [] = kvs := by
  have hne : ¬ encodeJsonStringMap kvs = "" := by
    cases kvs with
    | nil => decide
    | cons p rest =>
      intro h
      have := congrArg String.data h
      simp [encodeJsonStringMap] at this
  rw [safeParseJsonMap, if_neg hne, parseJsonStringMap_encode]
  rfl

/-- Reading back the row written for a record reproduces the record. -/
lemma mapRow_toRow (m : ServerBoxMetadata) : mapRow (toRow m) = m := by
  cases m with
  | mk id sandboxId state url previewToken username password providers labels ca ua =>
    simp [mapRow, toRow, normalizeState_toText, safeParseJsonList_encode,
      safeParseJsonMap_encode]

/-- Replacing the row with a given id makes lookup of that id return the new
row exactly when a row with the id was present. -/
lemma tableGet_map_replace (r : Row) :
    ∀ tbl : SqliteTable,
      (tbl.map (fun x => if x.id = r.id then r else x)).find? (fun x => x.id = r.id) =
        if tbl.any (fun x => x.id = r.id) = true then some r else none := by
  intro tbl
  induction tbl with
  | nil => simp
  | cons x rest ih =>
    by_cases hx : x.id = r.id
    · simp only [List.map_cons, if_pos hx, List.any_cons]
      rw [List.find?_cons_of_pos _ (by simp)]
      simp [hx]
    · simp only [List.map_cons, if_neg hx, List.any_cons]
      rw [List.find?_cons_of_neg _ (by simp [hx])]
      rw [ih]
      simp [hx]

/-- Upsert followed by primary-key lookup returns the upserted row. -/
lemma tableGet_tableSet_self (tbl : SqliteTable) (r : Row) :
    tableGet (tableSet tbl r) r.id = some r := by
  unfold tableGet tableSet
  by_cases hc : tbl.any (fun x => x.id = r.id) = true
  · rw [if_pos hc, tableGet_map_replace, if_pos hc]
  · rw [if_neg hc, List.find?_append]
    have hnone : tbl.find? (fun x => x.id = r.id) = none := by
      rw [List.find?_eq_none]
      intro x hx hpx
      exact hc (List.any_eq_true.mpr ⟨x, hx, hpx⟩)
    rw [hnone]
    simp [List.find?]

/-- C9: storing a well-formed record and reading it back by id returns an
equal record: all scalar columns round-trip verbatim, the state through its
text spelling, and providers and labels through their JSON serialization.
Well-formedness asks the labels keys to be distinct, as they are for any
JavaScript record. -/
theorem C9_store_set_get_roundtrip :
    ∀ (tbl : SqliteTable) (m : ServerBoxMetadata),
      (m.labels.map Prod.fst).Nodup →
      sqliteGet (sqliteSet tbl m) m.id = some m := by
  intro tbl m _
  unfold sqliteGet sqliteSet
  rw [show m.id = (toRow m).id from rfl, tableGet_tableSet_self]
  rw [Option.map_some']
  rw [mapRow_toRow]

/-- C9 witness: the theorem applied to a concrete record whose labels need
JSON escaping, stored into an empty table. -/
theorem C9_store_set_get_roundtrip_witness :
    (([("team", "a\"b"), ("env", "prod")] : List (String × String)).map Prod.fst).Nodup ∧
    sqliteGet
      (sqliteSet []
        { id := "i-1", sandboxId := "sb-1", state := .running,
          url := some "https://preview.test/sb-1/4096", previewToken := some "tok",
          username := "opencode", password := "pw", providers := ["opencode", "openai"],
          labels := [("team", "a\"b"), ("env", "prod")],
          createdAt := "2026-01-01T00:00:00.000Z",
          updatedAt := "2026-01-01T00:00:00.000Z" })
      "i-1" =
      some
        { id := "i-1", sandboxId := "sb-1", state := .running,
          url := some "https://preview.test/sb-1/4096", previewToken := some "tok",
          username := "opencode", password := "pw", providers := ["opencode", "openai"],
          labels := [("team", "a\"b"), ("env", "prod")],
          createdAt := "2026-01-01T00:00:00.000Z",
          updatedAt := "2026-01-01T00:00:00.000Z" } :=
  ⟨by decide,
   C9_store_set_get_roundtrip []
     { id := "i-1", sandboxId := "sb-1", state := .running,
       url := some "https://preview.test/sb-1/4096", previewToken := some "tok",
       username := "opencode", password := "pw", providers := ["opencode", "openai"],
       labels := [("team", "a\"b"), ("env", "prod")],
       createdAt := "2026-01-01T00:00:00.000Z",
       updatedAt := "2026-01-01T00:00:00.000Z" }
     (by decide)⟩

/- ------------------------------------------------------------------ -/
/- Claims C2 and C10: record invariants and frame conditions           -/
/- ------------------------------------------------------------------ -/

/-- The record invariant of claim C2: running exactly when the url is
present, and stopped, archived or destroyed records have neither url nor
preview token. -/
def RecordInv (m : ServerBoxMetadata) : Prop :=
  (m.state = .running ↔ m.url ≠ none) ∧
  ((m.state = .stopped ∨ m.state = .archived ∨ m.state = .destroyed) →
    m.url = none ∧ m.previewToken = none)

/-- Every record in the store satisfies the record invariant. -/
def StoreInv (st : MetaStore) : Prop := ∀ m ∈ st, RecordInv m

/-- The frame of claim C10: the fields a post-create transition never
rewrites. -/
def FramePreserved (m m2 : ServerBoxMetadata) : Prop :=
  m2.id = m.id ∧ m2.sandboxId = m.sandboxId ∧ m2.username = m.username ∧
  m2.password = m.password ∧ m2.providers = m.providers ∧ m2.labels = m.labels ∧
  m2.createdAt = m.createdAt

/-- Membership after an upsert: the new record or an old one. -/
lemma msSet_mem {st : MetaStore} {m a : ServerBoxMetadata} (h : a ∈ msSet st m) :
    a = m ∨ a ∈ st := by
  unfold msSet at h
  by_cases hc : st.any (fun r => r.id = m.id) = true
  · rw [if_pos hc] at h
    rcases List.mem_map.mp h with ⟨x, hx, rfl⟩
    by_cases hxm : x.id = m.id
    · rw [if_pos hxm]
      exact Or.inl rfl
    · rw [if_neg hxm]
      exact Or.inr hx
  · rw [if_neg hc] at h
    rcases List.mem_append.mp h with h | h
    · exact Or.inr h
    · exact Or.inl (List.mem_singleton.mp h)

/-- Upsert of an invariant-satisfying record preserves the store invariant. -/
lemma storeInv_msSet {st : MetaStore} {m : ServerBoxMetadata} (hm : RecordInv m)
    (hst : StoreInv st) : StoreInv (msSet st m) := by
  intro a ha
  rcases msSet_mem ha with rfl | ha
  · exact hm
  · exact hst a ha

/-- A record found by id carries that id. -/
lemma msGet_some_id {st : MetaStore} {id : String} {m : ServerBoxMetadata}
    (h : msGet st id = some m) : m.id = id := by
  have := List.find?_some h
  simpa using this

/-- A found record is in the store. -/
lemma msGet_some_mem {st : MetaStore} {id : String} {m : ServerBoxMetadata}
    (h : msGet st id = some m) : m ∈ st :=
  List.mem_of_find?_eq_some h

/-- Replacement-by-id lookup, metadata-store version. -/
lemma msGet_map_replace (m : ServerBoxMetadata) :
    ∀ st : MetaStore,
      (st.map (fun x => if x.id = m.id then m else x)).find? (fun x => x.id = m.id) =
        if st.any (fun x => x.id = m.id) = true then some m else none := by
  intro st
  induction st with
  | nil => simp
  | cons x rest ih =>
    by_cases hx : x.id = m.id
    · simp only [List.map_cons, if_pos hx, List.any_cons]
      rw [List.find?_cons_of_pos _ (by simp)]
      simp [hx]
    · simp only [List.map_cons, if_neg hx, List.any_cons]
      rw [List.find?_cons_of_neg _ (by simp [hx])]
      rw [ih]
      simp [hx]

/-- Upsert followed by lookup of the same id returns the record. -/
lemma msGet_msSet_self (st : MetaStore) (m : ServerBoxMetadata) :
    msGet (msSet st m) m.id = some m := by
  unfold msGet msSet
  by_cases hc : st.any (fun x => x.id = m.id) = true
  · rw [if_pos hc, msGet_map_replace, if_pos hc]
  · rw [if_neg hc, List.find?_append]
    have hnone : st.find? (fun x => x.id = m.id) = none := by
      rw [List.find?_eq_none]
      intro x hx hpx
      exact hc (List.any_eq_true.mpr ⟨x, hx, hpx⟩)
    rw [hnone]
    simp [List.find?]

/-- Characterization of a successful syncMetadata: the frame is preserved,
the returned record satisfies the invariant, the store is either upserted
with the returned record or untouched with the record unchanged, and any
change to the watched fields comes with a fresh updatedAt and a committed
upsert. -/
lemma syncMetadata_char {w : ProviderWorld} {now : String} {st : MetaStore}
    {m m2 : ServerBoxMetadata} {st2 : MetaStore}
    (hok : syncMetadata w now st m = .ok (m2, st2)) :
    FramePreserved m m2 ∧
    RecordInv m2 ∧
    (st2 = msSet st m2 ∨ (m2 = m ∧ st2 = st)) ∧
    ((¬ m2.state = m.state ∨ ¬ m2.url = m.url ∨ ¬ m2.previewToken = m.previewToken) →
      m2.updatedAt = now ∧ st2 = msSet st m2) := by
  unfold syncMetadata at hok
  cases hfind : w.findSandbox m.sandboxId with
  | error e =>
    rw [hfind] at hok
    dsimp only at hok
    by_cases hnf : notFoundErr e = true
    · rw [if_pos hnf] at hok
      cases hok
      refine ⟨⟨rfl, rfl, rfl, rfl, rfl, rfl, rfl⟩, ⟨by simp, by simp⟩, Or.inl rfl,
        fun _ => ⟨rfl, rfl⟩⟩
    · rw [if_neg hnf] at hok
      cases hok
  | ok sandbox =>
    rw [hfind] at hok
    dsimp only at hok
    cases hrun : decide (getSandboxState sandbox.rawState = ServerBoxState.running) with
    | true =>
      have hns : getSandboxState sandbox.rawState = .running := of_decide_eq_true hrun
      rw [if_pos hns] at hok
      cases hpl : w.getPreviewLink sandbox.id with
      | error e =>
        rw [hpl] at hok
        cases hok
      | ok preview =>
        rw [hpl] at hok
        dsimp only at hok
        by_cases hch : (¬ m.state = getSandboxState sandbox.rawState ∨
            ¬ m.url = some preview.url ∨ ¬ m.previewToken = preview.token)
        · rw [if_pos hch] at hok
          cases hok
          refine ⟨⟨rfl, rfl, rfl, rfl, rfl, rfl, rfl⟩, ⟨?_, ?_⟩, Or.inl rfl,
            fun _ => ⟨rfl, rfl⟩⟩
          · simp [hns]
          · intro hbad
            rw [hns] at hbad
            rcases hbad with h | h | h <;> cases h
        · rw [if_neg hch] at hok
          cases hok
          push_neg at hch
          refine ⟨⟨rfl, rfl, rfl, rfl, rfl, rfl, rfl⟩, ⟨?_, ?_⟩, Or.inr ⟨rfl, rfl⟩, ?_⟩
          · rw [hch.1, hns, hch.2.1]
            simp
          · intro hbad
            rw [hch.1, hns] at hbad
            rcases hbad with h | h | h <;> cases h
          · intro hbad
            rcases hbad with h | h | h <;> exact absurd rfl h
    | false =>
      have hns : ¬ getSandboxState sandbox.rawState = .running :=
        of_decide_eq_false hrun
      rw [if_neg hns] at hok
      dsimp only at hok
      by_cases hch : (¬ m.state = getSandboxState sandbox.rawState ∨
          ¬ m.url = (none : Option String) ∨
          ¬ m.previewToken = (none : Option String))
      · rw [if_pos hch] at hok
        cases hok
        refine ⟨⟨rfl, rfl, rfl, rfl, rfl, rfl, rfl⟩, ⟨?_, ?_⟩, Or.inl rfl,
          fun _ => ⟨rfl, rfl⟩⟩
        · simp only []
          constructor
          · intro h
            exact absurd h hns
          · intro h
            exact absurd rfl h
        · intro _
          exact ⟨rfl, rfl⟩
      · rw [if_neg hch] at hok
        cases hok
        push_neg at hch
        refine ⟨⟨rfl, rfl, rfl, rfl, rfl, rfl, rfl⟩, ⟨?_, ?_⟩, Or.inr ⟨rfl, rfl⟩, ?_⟩
        · rw [hch.1, hch.2.1]
          constructor
          · intro h
            exact absurd h hns
          · intro h
            exact absurd rfl h
        · intro _
          exact ⟨hch.2.1, hch.2.2⟩
        · intro hbad
          rcases hbad with h | h | h <;> exact absurd rfl h

/-- Characterization of a successful stopInstance. -/
lemma stopInstance_char {w : ProviderWorld} {now : String} {st : MetaStore}
    {id : String} {m2 : ServerBoxMetadata} {st2 : MetaStore}
    (hok : stopInstance w now st id = .ok (m2, st2)) :
    ∃ m0, msGet st id = some m0 ∧
      m2 = { m0 with state := .stopped, url := none, previewToken := none,
                     updatedAt := now } ∧
      st2 = msSet st m2 := by
  unfold stopInstance getMetadataOrThrow at hok
  cases hget : msGet st id with
  | none =>
    rw [hget] at hok
    cases hok
  | some m0 =>
    rw [hget] at hok
    dsimp only at hok
    cases hfind : w.findSandbox m0.sandboxId with
    | error e =>
      rw [hfind] at hok
      cases hok
    | ok sandbox =>
      rw [hfind] at hok
      dsimp only at hok
      cases hstop : w.stopSandbox sandbox.id with
      | error e =>
        rw [hstop] at hok
        cases hok
      | ok u =>
        rw [hstop] at hok
        dsimp only at hok
        cases hok
        exact ⟨m0, rfl, rfl, rfl⟩

/-- Characterization of a successful resumeInstance. -/
lemma resumeInstance_char {w : ProviderWorld} {now : String} {st : MetaStore}
    {id : String} {m2 : ServerBoxMetadata} {st2 : MetaStore}
    (hok : resumeInstance w now st id = .ok (m2, st2)) :
    ∃ (m0 : ServerBoxMetadata) (preview : PreviewLink), msGet st id = some m0 ∧
      m2 = { m0 with state := .running, url := some preview.url,
                     previewToken := preview.token, updatedAt := now } ∧
      st2 = msSet st m2 := by
  unfold resumeInstance getMetadataOrThrow at hok
  cases hget : msGet st id with
  | none =>
    rw [hget] at hok
    cases hok
  | some m0 =>
    rw [hget] at hok
    dsimp only at hok
    cases hfind : w.findSandbox m0.sandboxId with
    | error e =>
      rw [hfind] at hok
      cases hok
    | ok sandbox =>
      rw [hfind] at hok
      dsimp only at hok
      cases hstart : w.startSandbox sandbox.id with
      | error e =>
        rw [hstart] at hok
        cases hok
      | ok u =>
        rw [hstart] at hok
        dsimp only at hok
        cases hboot : w.bootstrap sandbox.id with
        | error e =>
          rw [hboot] at hok
          cases hok
        | ok u2 =>
          rw [hboot] at hok
          dsimp only at hok
          cases hpl : w.getPreviewLink sandbox.id with
          | error e =>
            rw [hpl] at hok
            cases hok
          | ok preview =>
            rw [hpl] at hok
            dsimp only at hok
            cases hh : w.waitHealth sandbox.id with
            | error e =>
              rw [hh] at hok
              cases hok
            | ok u3 =>
              rw [hh] at hok
              dsimp only at hok
              cases hok
              exact ⟨m0, preview, rfl, rfl, rfl⟩

/-- Characterization of a successful archiveInstance. -/
lemma archiveInstance_char {w : ProviderWorld} {now : String} {st : MetaStore}
    {id : String} {m2 : ServerBoxMetadata} {st2 : MetaStore}
    (hok : archiveInstance w now st id = .ok (m2, st2)) :
    ∃ m0, msGet st id = some m0 ∧
      m2 = { m0 with state := .archived, url := none, previewToken := none,
                     updatedAt := now } ∧
      st2 = msSet st m2 := by
  unfold archiveInstance getMetadataOrThrow at hok
  cases hget : msGet st id with
  | none =>
    rw [hget] at hok
    cases hok
  | some m0 =>
    rw [hget] at hok
    dsimp only at hok
    cases hfind : w.findSandbox m0.sandboxId with
    | error e =>
      rw [hfind] at hok
      cases hok
    | ok sandbox =>
      rw [hfind] at hok
      dsimp only at hok
      cases harch : w.archiveSandbox sandbox.id with
      | error e =>
        rw [harch] at hok
        cases hok
      | ok u =>
        rw [harch] at hok
        dsimp only at hok
        cases hok
        exact ⟨m0, rfl, rfl, rfl⟩

/-- Characterization of a successful create: the stored record is running
with the preview url, both timestamps fresh, and the store is upserted. -/
lemma serverBoxCreate_char {w : ProviderWorld} {now : String} {st : MetaStore}
    {opts : CreateOptions} {username password : String} {providers : List String}
    {m2 : ServerBoxMetadata} {st2 : MetaStore}
    (hok : serverBoxCreate w now st opts username password providers = .ok (m2, st2)) :
    ∃ (sandbox : Sandbox) (preview : PreviewLink),
      m2 = { id := opts.id, sandboxId := sandbox.id, state := .running,
             url := some preview.url, previewToken := preview.token,
             username := username, password := password, providers := providers,
             labels := opts.labels, createdAt := now, updatedAt := now } ∧
      st2 = msSet st m2 := by
  unfold serverBoxCreate at hok
  cases hcr : w.createSandbox with
  | error e =>
    rw [hcr] at hok
    cases hok
  | ok sandbox =>
    rw [hcr] at hok
    dsimp only at hok
    cases hboot : w.bootstrap sandbox.id with
    | error e =>
      rw [hboot] at hok
      cases hok
    | ok u =>
      rw [hboot] at hok
      dsimp only at hok
      cases hpl : w.getPreviewLink sandbox.id with
      | error e =>
        rw [hpl] at hok
        cases hok
      | ok preview =>
        rw [hpl] at hok
        dsimp only at hok
        cases hh : w.waitHealth sandbox.id with
        | error e =>
          rw [hh] at hok
          cases hok
        | ok u2 =>
          rw [hh] at hok
          dsimp only at hok
          cases hok
          exact ⟨sandbox, preview, rfl, rfl⟩

/-- The refresh pass returns invariant records and preserves the store
invariant, given the input snapshot satisfies the invariant. -/
lemma syncAll_inv {w : ProviderWorld} {now : String} :
    ∀ (items : List ServerBoxMetadata) (st : MetaStore),
      (∀ m ∈ items, RecordInv m) → StoreInv st →
      (∀ m2 ∈ (syncAll w now st items).1, RecordInv m2) ∧
      StoreInv (syncAll w now st items).2 := by
  intro items
  induction items with
  | nil =>
    intro st _ hst
    exact ⟨fun m2 hm2 => absurd hm2 (List.not_mem_nil m2), hst⟩
  | cons m rest ih =>
    intro st hitems hst
    have hm : RecordInv m := hitems m (List.mem_cons_self m rest)
    have hrest : ∀ m2 ∈ rest, RecordInv m2 :=
      fun m2 hm2 => hitems m2 (List.mem_cons_of_mem m hm2)
    cases hs : syncMetadata w now st m with
    | ok pair =>
      obtain ⟨m2, st2⟩ := pair
      obtain ⟨_, hinv2, hstore2, _⟩ := syncMetadata_char hs
      have hst2 : StoreInv st2 := by
        rcases hstore2 with rfl | ⟨_, rfl⟩
        · exact storeInv_msSet hinv2 hst
        · exact hst
      obtain ⟨hout, hstout⟩ := ih st2 hrest hst2
      rcases hall : syncAll w now st2 rest with ⟨items2, st3⟩
      rw [hall] at hout hstout
      constructor
      · intro m3 hm3
        rw [show syncAll w now st (m :: rest) = (m2 :: items2, st3) by
          rw [syncAll, hs]; dsimp only; rw [hall]] at hm3
        rcases List.mem_cons.mp hm3 with rfl | hm3
        · exact hinv2
        · exact hout m3 hm3
      · rw [show syncAll w now st (m :: rest) = (m2 :: items2, st3) by
          rw [syncAll, hs]; dsimp only; rw [hall]]
        exact hstout
    | error e =>
      obtain ⟨hout, hstout⟩ := ih st hrest hst
      rcases hall : syncAll w now st rest with ⟨items2, st3⟩
      rw [hall] at hout hstout
      constructor
      · intro m3 hm3
        rw [show syncAll w now st (m :: rest) = (m :: items2, st3) by
          rw [syncAll, hs]; dsimp only; rw [hall]] at hm3
        rcases List.mem_cons.mp hm3 with rfl | hm3
        · exact hm
        · exact hout m3 hm3
      · rw [show syncAll w now st (m :: rest) = (m :: items2, st3) by
          rw [syncAll, hs]; dsimp only; rw [hall]]
        exact hstout

/-- The state filter only selects from its input. -/
lemma mem_applyStateFilter {opt : Option ServerBoxState}
    {items : List ServerBoxMetadata} {m : ServerBoxMetadata}
    (h : m ∈ applyStateFilter opt items) : m ∈ items := by
  cases opt with
  | none => exact h
  | some s => exact (List.mem_filter.mp h).1

/-- The labels filter only selects from its input. -/
lemma mem_applyLabelsFilter {opt : Option (List (String × String))}
    {items : List ServerBoxMetadata} {m : ServerBoxMetadata}
    (h : m ∈ applyLabelsFilter opt items) : m ∈ items := by
  cases opt with
  | none => exact h
  | some f => exact (List.mem_filter.mp h).1

/-- C2: every record returned by create, get, list (with or without refresh),
stop, resume, archive, or reconciliation satisfies the state-url invariant:
running exactly when url is present, and stopped, archived or destroyed
records carry neither url nor previewToken. The store invariant is preserved
by every operation, and list requires it of the incoming store, since the
non-refresh path returns stored records verbatim. -/
theorem C2_running_iff_url :
    (∀ (w : ProviderWorld) (now : String) (st : MetaStore) (opts : CreateOptions)
        (username password : String) (providers : List String)
        (m2 : ServerBoxMetadata) (st2 : MetaStore),
      serverBoxCreate w now st opts username password providers = .ok (m2, st2) →
      RecordInv m2 ∧ (StoreInv st → StoreInv st2)) ∧
    (∀ (w : ProviderWorld) (now : String) (st : MetaStore) (id : String)
        (m2 : ServerBoxMetadata) (st2 : MetaStore),
      serverBoxGet w now st id = .ok (m2, st2) →
      RecordInv m2 ∧ (StoreInv st → StoreInv st2)) ∧
    (∀ (w : ProviderWorld) (now : String) (st : MetaStore) (opts : ListOptions),
      StoreInv st →
      (∀ m2 ∈ (serverBoxList w now st opts).1, RecordInv m2) ∧
      StoreInv (serverBoxList w now st opts).2) ∧
    (∀ (w : ProviderWorld) (now : String) (st : MetaStore) (id : String)
        (m2 : ServerBoxMetadata) (st2 : MetaStore),
      stopInstance w now st id = .ok (m2, st2) →
      RecordInv m2 ∧ (StoreInv st → StoreInv st2)) ∧
    (∀ (w : ProviderWorld) (now : String) (st : MetaStore) (id : String)
        (m2 : ServerBoxMetadata) (st2 : MetaStore),
      resumeInstance w now st id = .ok (m2, st2) →
      RecordInv m2 ∧ (StoreInv st → StoreInv st2)) ∧
    (∀ (w : ProviderWorld) (now : String) (st : MetaStore) (id : String)
        (m2 : ServerBoxMetadata) (st2 : MetaStore),
      archiveInstance w now st id = .ok (m2, st2) →
      RecordInv m2 ∧ (StoreInv st → StoreInv st2)) ∧
    (∀ (w : ProviderWorld) (now : String) (st : MetaStore) (m m2 : ServerBoxMetadata)
        (st2 : MetaStore),
      syncMetadata w now st m = .ok (m2, st2) →
      RecordInv m2 ∧ (StoreInv st → StoreInv st2)) := by
  refine ⟨?_, ?_, ?_, ?_, ?_, ?_, ?_⟩
  · intro w now st opts username password providers m2 st2 hok
    obtain ⟨sandbox, preview, rfl, rfl⟩ := serverBoxCreate_char hok
    refine ⟨⟨by simp, by rintro (h | h | h) <;> cases h⟩, fun hst => ?_⟩
    exact storeInv_msSet ⟨by simp, by rintro (h | h | h) <;> cases h⟩ hst
  · intro w now st id m2 st2 hok
    unfold serverBoxGet getMetadataOrThrow at hok
    cases hget : msGet st id with
    | none =>
      rw [hget] at hok
      cases hok
    | some m0 =>
      rw [hget] at hok
      dsimp only at hok
      obtain ⟨_, hinv, hstore, _⟩ := syncMetadata_char hok
      refine ⟨hinv, fun hst => ?_⟩
      rcases hstore with rfl | ⟨_, rfl⟩
      · exact storeInv_msSet hinv hst
      · exact hst
  · intro w now st opts hst
    have hbase : (∀ m2 ∈ (if opts.refresh then syncAll w now st st else (st, st)).1,
        RecordInv m2) ∧
        StoreInv (if opts.refresh then syncAll w now st st else (st, st)).2 := by
      by_cases hr : opts.refresh = true
      · rw [hr, if_pos rfl]
        exact syncAll_inv st st hst hst
      · rw [Bool.not_eq_true] at hr
        rw [hr, if_neg (by simp)]
        exact ⟨hst, hst⟩
    constructor
    · intro m2 hm2
      have hmem : m2 ∈ (if opts.refresh then syncAll w now st st else (st, st)).1 :=
        mem_applyStateFilter (mem_applyLabelsFilter hm2)
      exact hbase.1 m2 hmem
    · exact hbase.2
  · intro w now st id m2 st2 hok
    obtain ⟨m0, hget, rfl, rfl⟩ := stopInstance_char hok
    refine ⟨⟨by simp, fun _ => ⟨rfl, rfl⟩⟩, fun hst => ?_⟩
    exact storeInv_msSet ⟨by simp, fun _ => ⟨rfl, rfl⟩⟩ hst
  · intro w now st id m2 st2 hok
    obtain ⟨m0, preview, hget, rfl, rfl⟩ := resumeInstance_char hok
    refine ⟨⟨by simp, by rintro (h | h | h) <;> cases h⟩, fun hst => ?_⟩
    exact storeInv_msSet ⟨by simp, by rintro (h | h | h) <;> cases h⟩ hst
  · intro w now st id m2 st2 hok
    obtain ⟨m0, hget, rfl, rfl⟩ := archiveInstance_char hok
    refine ⟨⟨by simp, fun _ => ⟨rfl, rfl⟩⟩, fun hst => ?_⟩
    exact storeInv_msSet ⟨by simp, fun _ => ⟨rfl, rfl⟩⟩ hst
  · intro w now st m m2 st2 hok
    obtain ⟨_, hinv, hstore, _⟩ := syncMetadata_char hok
    refine ⟨hinv, fun hst => ?_⟩
    rcases hstore with rfl | ⟨_, rfl⟩
    · exact storeInv_msSet hinv hst
    · exact hst

/-- C2 witness: the stop conjunct of the invariant theorem applied to a
concrete world and store. -/
theorem C2_running_iff_url_witness :
    stopInstance
      { findSandbox := fun _ => .ok { id := "sb-1", rawState := "started" },
        createSandbox := .ok { id := "sb-1", rawState := "started" },
        getPreviewLink := fun _ => .ok { url := "https://p", token := some "tok" },
        stopSandbox := fun _ => .ok (), startSandbox := fun _ => .ok (),
        archiveSandbox := fun _ => .ok (), removeSandbox := fun _ => .ok (),
        bootstrap := fun _ => .ok (), waitHealth := fun _ => .ok () }
      "t1"
      [{ id := "i-1", sandboxId := "sb-1", state := .running,
         url := some "https://p", previewToken := some "tok", username := "opencode",
         password := "pw", providers := ["opencode"], labels := [],
         createdAt := "t0", updatedAt := "t0" }]
      "i-1" =
      .ok
        ({ id := "i-1", sandboxId := "sb-1", state := .stopped,
           url := none, previewToken := none, username := "opencode",
           password := "pw", providers := ["opencode"], labels := [],
           createdAt := "t0", updatedAt := "t1" },
         [{ id := "i-1", sandboxId := "sb-1", state := .stopped,
            url := none, previewToken := none, username := "opencode",
            password := "pw", providers := ["opencode"], labels := [],
            createdAt := "t0", updatedAt := "t1" }]) ∧
    RecordInv
      { id := "i-1", sandboxId := "sb-1", state := .stopped,
        url := none, previewToken := none, username := "opencode",
        password := "pw", providers := ["opencode"], labels := [],
        createdAt := "t0", updatedAt := "t1" } ∧
    StoreInv
      [{ id := "i-1", sandboxId := "sb-1", state := .stopped,
         url := none, previewToken := none, username := "opencode",
         password := "pw", providers := ["opencode"], labels := [],
         createdAt := "t0", updatedAt := "t1" }] := by
  have hok : stopInstance
      { findSandbox := fun _ => .ok { id := "sb-1", rawState := "started" },
        createSandbox := .ok { id := "sb-1", rawState := "started" },
        getPreviewLink := fun _ => .ok { url := "https://p", token := some "tok" },
        stopSandbox := fun _ => .ok (), startSandbox := fun _ => .ok (),
        archiveSandbox := fun _ => .ok (), removeSandbox := fun _ => .ok (),
        bootstrap := fun _ => .ok (), waitHealth := fun _ => .ok () }
      "t1"
      [{ id := "i-1", sandboxId := "sb-1", state := .running,
         url := some "https://p", previewToken := some "tok", username := "opencode",
         password := "pw", providers := ["opencode"], labels := [],
         createdAt := "t0", updatedAt := "t0" }]
      "i-1" =
      .ok
        ({ id := "i-1", sandboxId := "sb-1", state := .stopped,
           url := none, previewToken := none, username := "opencode",
           password := "pw", providers := ["opencode"], labels := [],
           createdAt := "t0", updatedAt := "t1" },
         [{ id := "i-1", sandboxId := "sb-1", state := .stopped,
            url := none, previewToken := none, username := "opencode",
            password := "pw", providers := ["opencode"], labels := [],
            createdAt := "t0", updatedAt := "t1" }]) := by decide
  have happ := C2_running_iff_url.2.2.2.1 _ _ _ _ _ _ hok
  refine ⟨hok, happ.1, happ.2 ?_⟩
  intro m hm
  rcases List.mem_singleton.mp hm with rfl
  refine ⟨by simp, ?_⟩
  rintro (h | h | h) <;> cases h

/-- Upsert then lookup under a known id. -/
lemma msGet_msSet_self_of_id (st : MetaStore) (m2 : ServerBoxMetadata) (id : String)
    (h : m2.id = id) : msGet (msSet st m2) id = some m2 := by
  rw [← h]
  exact msGet_msSet_self st m2

/-- C10: stop, resume, archive and reconciliation leave id, sandboxId,
username, password, providers, labels and createdAt untouched; stop, resume
and archive stamp updatedAt with the transition time and commit the new
record to the store before returning it, and reconciliation does so for
every run that changes state, url or previewToken (an unchanged run returns
the stored record without a write). -/
theorem C10_frame_and_commit :
    (∀ (w : ProviderWorld) (now : String) (st : MetaStore) (id : String)
        (m2 : ServerBoxMetadata) (st2 : MetaStore),
      stopInstance w now st id = .ok (m2, st2) →
      ∃ m0, msGet st id = some m0 ∧ FramePreserved m0 m2 ∧
        m2.updatedAt = now ∧ msGet st2 id = some m2) ∧
    (∀ (w : ProviderWorld) (now : String) (st : MetaStore) (id : String)
        (m2 : ServerBoxMetadata) (st2 : MetaStore),
      resumeInstance w now st id = .ok (m2, st2) →
      ∃ m0, msGet st id = some m0 ∧ FramePreserved m0 m2 ∧
        m2.updatedAt = now ∧ msGet st2 id = some m2) ∧
    (∀ (w : ProviderWorld) (now : String) (st : MetaStore) (id : String)
        (m2 : ServerBoxMetadata) (st2 : MetaStore),
      archiveInstance w now st id = .ok (m2, st2) →
      ∃ m0, msGet st id = some m0 ∧ FramePreserved m0 m2 ∧
        m2.updatedAt = now ∧ msGet st2 id = some m2) ∧
    (∀ (w : ProviderWorld) (now : String) (st : MetaStore)
        (m m2 : ServerBoxMetadata) (st2 : MetaStore),
      syncMetadata w now st m = .ok (m2, st2) →
      FramePreserved m m2 ∧
        ((¬ m2.state = m.state ∨ ¬ m2.url = m.url ∨ ¬ m2.previewToken = m.previewToken) →
          m2.updatedAt = now ∧ msGet st2 m.id = some m2)) := by
  refine ⟨?_, ?_, ?_, ?_⟩
  · intro w now st id m2 st2 hok
    obtain ⟨m0, hget, rfl, rfl⟩ := stopInstance_char hok
    have hid0 : m0.id = id := msGet_some_id hget
    exact ⟨m0, hget, ⟨rfl, rfl, rfl, rfl, rfl, rfl, rfl⟩, rfl,
      msGet_msSet_self_of_id st _ id hid0⟩
  · intro w now st id m2 st2 hok
    obtain ⟨m0, preview, hget, rfl, rfl⟩ := resumeInstance_char hok
    have hid0 : m0.id = id := msGet_some_id hget
    exact ⟨m0, hget, ⟨rfl, rfl, rfl, rfl, rfl, rfl, rfl⟩, rfl,
      msGet_msSet_self_of_id st _ id hid0⟩
  · intro w now st id m2 st2 hok
    obtain ⟨m0, hget, rfl, rfl⟩ := archiveInstance_char hok
    have hid0 : m0.id = id := msGet_some_id hget
    exact ⟨m0, hget, ⟨rfl, rfl, rfl, rfl, rfl, rfl, rfl⟩, rfl,
      msGet_msSet_self_of_id st _ id hid0⟩
  · intro w now st m m2 st2 hok
    obtain ⟨hframe, _, _, hcommit⟩ := syncMetadata_char hok
    refine ⟨hframe, fun hch => ?_⟩
    obtain ⟨hupd, rfl⟩ := hcommit hch
    exact ⟨hupd, msGet_msSet_self_of_id st m2 m.id hframe.1⟩

/-- C10 witness: the archive conjunct applied to a concrete world and store. -/
theorem C10_frame_and_commit_witness :
    archiveInstance
      { findSandbox := fun _ => .ok { id := "sb-2", rawState := "started" },
        createSandbox := .ok { id := "sb-2", rawState := "started" },
        getPreviewLink := fun _ => .ok { url := "https://q", token := none },
        stopSandbox := fun _ => .ok (), startSandbox := fun _ => .ok (),
        archiveSandbox := fun _ => .ok (), removeSandbox := fun _ => .ok (),
        bootstrap := fun _ => .ok (), waitHealth := fun _ => .ok () }
      "t9"
      [{ id := "i-2", sandboxId := "sb-2", state := .running,
         url := some "https://q", previewToken := none, username := "opencode",
         password := "pw2", providers := ["opencode"], labels := [("k", "v")],
         createdAt := "t0", updatedAt := "t0" }]
      "i-2" =
      .ok
        ({ id := "i-2", sandboxId := "sb-2", state := .archived,
           url := none, previewToken := none, username := "opencode",
           password := "pw2", providers := ["opencode"], labels := [("k", "v")],
           createdAt := "t0", updatedAt := "t9" },
         [{ id := "i-2", sandboxId := "sb-2", state := .archived,
            url := none, previewToken := none, username := "opencode",
            password := "pw2", providers := ["opencode"], labels := [("k", "v")],
            createdAt := "t0", updatedAt := "t9" }]) ∧
    ∃ m0, msGet
        [{ id := "i-2", sandboxId := "sb-2", state := .running,
           url := some "https://q", previewToken := none, username := "opencode",
           password := "pw2", providers := ["opencode"], labels := [("k", "v")],
           createdAt := "t0", updatedAt := "t0" }] "i-2" = some m0 ∧
      FramePreserved m0
        { id := "i-2", sandboxId := "sb-2", state := .archived,
          url := none, previewToken := none, username := "opencode",
          password := "pw2", providers := ["opencode"], labels := [("k", "v")],
          createdAt := "t0", updatedAt := "t9" } ∧
      ({ id := "i-2", sandboxId := "sb-2", state := .archived,
         url := none, previewToken := none, username := "opencode",
         password := "pw2", providers := ["opencode"], labels := [("k", "v")],
         createdAt := "t0", updatedAt := "t9" } : ServerBoxMetadata).updatedAt = "t9" ∧
      msGet
        [{ id := "i-2", sandboxId := "sb-2", state := .archived,
           url := none, previewToken := none, username := "opencode",
           password := "pw2", providers := ["opencode"], labels := [("k", "v")],
           createdAt := "t0", updatedAt := "t9" }] "i-2" =
        some
          { id := "i-2", sandboxId := "sb-2", state := .archived,
            url := none, previewToken := none, username := "opencode",
            password := "pw2", providers := ["opencode"], labels := [("k", "v")],
            createdAt := "t0", updatedAt := "t9" } := by
  have hok : archiveInstance
      { findSandbox := fun _ => .ok { id := "sb-2", rawState := "started" },
        createSandbox := .ok { id := "sb-2", rawState := "started" },
        getPreviewLink := fun _ => .ok { url := "https://q", token := none },
        stopSandbox := fun _ => .ok (), startSandbox := fun _ => .ok (),
        archiveSandbox := fun _ => .ok (), removeSandbox := fun _ => .ok (),
        bootstrap := fun _ => .ok (), waitHealth := fun _ => .ok () }
      "t9"
      [{ id := "i-2", sandboxId := "sb-2", state := .running,
         url := some "https://q", previewToken := none, username := "opencode",
         password := "pw2", providers := ["opencode"], labels := [("k", "v")],
         createdAt := "t0", updatedAt := "t0" }]
      "i-2" =
      .ok
        ({ id := "i-2", sandboxId := "sb-2", state := .archived,
           url := none, previewToken := none, username := "opencode",
           password := "pw2", providers := ["opencode"], labels := [("k", "v")],
           createdAt := "t0", updatedAt := "t9" },
         [{ id := "i-2", sandboxId := "sb-2", state := .archived,
            url := none, previewToken := none, username := "opencode",
            password := "pw2", providers := ["opencode"], labels := [("k", "v")],
            createdAt := "t0", updatedAt := "t9" }]) := by decide
  exact ⟨hok, C10_frame_and_commit.2.2.1 _ _ _ _ _ _ hok⟩

/- ------------------------------------------------------------------ -/
/- Claim C5: destroy idempotence and not-found tolerance               -/
/- ------------------------------------------------------------------ -/

/-- C5: destroy of an unknown id raises no error and leaves the store
untouched; for a known id, a not-found failure of the find-and-remove
pipeline (or its success) still deletes the record; any other failure
propagates through the DAYTONA_API_ERROR wrap before the delete, so the
record is kept, and for every failure shape the provider adapter can emit
(plain errors, non-Error throws, or already-wrapped DAYTONA_API_ERROR) the
propagated error carries the DAYTONA_API_ERROR code. -/
theorem C5_destroy_semantics :
    (∀ (w : ProviderWorld) (st : MetaStore) (id : String),
      msGet st id = none → serverBoxDestroy w st id = (.ok (), st)) ∧
    (∀ (w : ProviderWorld) (st : MetaStore) (id : String) (m : ServerBoxMetadata)
        (e : JsError),
      msGet st id = some m → destroyRemoval w m = .error e → notFoundErr e = true →
      serverBoxDestroy w st id = (.ok (), msDelete st id)) ∧
    (∀ (w : ProviderWorld) (st : MetaStore) (id : String) (m : ServerBoxMetadata),
      msGet st id = some m → destroyRemoval w m = .ok () →
      serverBoxDestroy w st id = (.ok (), msDelete st id)) ∧
    (∀ (w : ProviderWorld) (st : MetaStore) (id : String) (m : ServerBoxMetadata)
        (e : JsError),
      msGet st id = some m → destroyRemoval w m = .error e → notFoundErr e = false →
      serverBoxDestroy w st id =
        (.error (ServerBoxError.wrap .DAYTONA_API_ERROR e), st) ∧
      (((∃ b, e = .errObj b) ∨ e = .nonError ∨
          (∃ b, e = .serverBox .DAYTONA_API_ERROR b)) →
        ∃ b2, ServerBoxError.wrap .DAYTONA_API_ERROR e =
          .serverBox .DAYTONA_API_ERROR b2)) := by
  refine ⟨?_, ?_, ?_, ?_⟩
  · intro w st id hget
    unfold serverBoxDestroy
    rw [hget]
  · intro w st id m e hget hrem hnf
    unfold serverBoxDestroy
    rw [hget]
    dsimp only
    rw [hrem]
    dsimp only
    rw [if_pos hnf]
  · intro w st id m hget hrem
    unfold serverBoxDestroy
    rw [hget]
    dsimp only
    rw [hrem]
  · intro w st id m e hget hrem hnf
    constructor
    · unfold serverBoxDestroy
      rw [hget]
      dsimp only
      rw [hrem]
      dsimp only
      rw [if_neg (by rw [hnf]; exact Bool.false_ne_true)]
    · rintro (⟨b, rfl⟩ | rfl | ⟨b, rfl⟩)
      · exact ⟨b, rfl⟩
      · exact ⟨false, rfl⟩
      · exact ⟨b, rfl⟩

/-- C5 witness: a destroy over a missing sandbox deletes the record, and a
destroy of an unknown id is a no-op, at concrete inputs. -/
theorem C5_destroy_semantics_witness :
    serverBoxDestroy
      { findSandbox := fun _ => .error (.serverBox .SANDBOX_NOT_FOUND true),
        createSandbox := .ok { id := "sb-3", rawState := "started" },
        getPreviewLink := fun _ => .ok { url := "https://r", token := none },
        stopSandbox := fun _ => .ok (), startSandbox := fun _ => .ok (),
        archiveSandbox := fun _ => .ok (), removeSandbox := fun _ => .ok (),
        bootstrap := fun _ => .ok (), waitHealth := fun _ => .ok () }
      [{ id := "i-3", sandboxId := "sb-3", state := .stopped,
         url := none, previewToken := none, username := "opencode",
         password := "pw3", providers := ["opencode"], labels := [],
         createdAt := "t0", updatedAt := "t0" }]
      "i-3" =
      (.ok (),
        msDelete
          [{ id := "i-3", sandboxId := "sb-3", state := .stopped,
             url := none, previewToken := none, username := "opencode",
             password := "pw3", providers := ["opencode"], labels := [],
             createdAt := "t0", updatedAt := "t0" }] "i-3") ∧
    serverBoxDestroy
      { findSandbox := fun _ => .error (.serverBox .SANDBOX_NOT_FOUND true),
        createSandbox := .ok { id := "sb-3", rawState := "started" },
        getPreviewLink := fun _ => .ok { url := "https://r", token := none },
        stopSandbox := fun _ => .ok (), startSandbox := fun _ => .ok (),
        archiveSandbox := fun _ => .ok (), removeSandbox := fun _ => .ok (),
        bootstrap := fun _ => .ok (), waitHealth := fun _ => .ok () }
      [] "i-404" = (.ok (), []) := by
  constructor
  · exact C5_destroy_semantics.2.1 _ _ "i-3"
      { id := "i-3", sandboxId := "sb-3", state := .stopped,
        url := none, previewToken := none, username := "opencode",
        password := "pw3", providers := ["opencode"], labels := [],
        createdAt := "t0", updatedAt := "t0" }
      (.serverBox .SANDBOX_NOT_FOUND true) (by decide) (by decide) (by decide)
  · exact C5_destroy_semantics.1 _ [] "i-404" (by decide)

/- ------------------------------------------------------------------ -/
/- Claim C1: resume coordinator dedup                                  -/
/- ------------------------------------------------------------------ -/

/-- Pointwise unfolding of a task update. -/
lemma setTask_apply (tasks : Nat → TaskPhase) (k : Nat) (ph : TaskPhase) (j : Nat) :
    setTask tasks k ph j = if j = k then ph else tasks j := rfl

/-- Running a concatenated schedule runs the two halves in order. -/
lemma coordRun_append (a : List CoordEvent) :
    ∀ (b : List CoordEvent) (s : CoordState),
      coordRun s (a ++ b) =
        match coordRun s a with
        | some s1 => coordRun s1 b
        | none => none := by
  induction a with
  | nil =>
    intro b s
    rfl
  | cons ev rest ih =>
    intro b s
    show coordRun s (ev :: (rest ++ b)) = _
    rw [coordRun]
    cases hstep : coordStep s ev with
    | none =>
      rw [coordRun, hstep]
    | some s1 =>
      rw [coordRun, hstep]
      exact ih b s1

/-- A joiner that finished returned the running record: once some resume
settled successfully the record is running, and every finish event copies
the then-current record. -/
def GoodFinish (s : CoordState) : Prop :=
  (¬ s.settledOk = [] → s.recordState = .running) ∧
  (∀ k st, s.tasks k = .finished st → st = .running)

/-- A task update with a non-finished phase keeps the finished-task facts. -/
lemma finished_after_setTask {tasks : Nat → TaskPhase} {k : Nat} {ph : TaskPhase}
    (hfin : ∀ j st, tasks j = .finished st → st = ServerBoxState.running)
    (hph : ∀ st, ¬ ph = .finished st) :
    ∀ j st, setTask tasks k ph j = .finished st → st = ServerBoxState.running := by
  intro j st hj
  rw [setTask_apply] at hj
  by_cases hjk : j = k
  · rw [if_pos hjk] at hj
    exact absurd hj (hph st)
  · rw [if_neg hjk] at hj
    exact hfin j st hj

/-- GoodFinish is preserved by every enabled step. -/
lemma goodFinish_step {s s2 : CoordState} {ev : CoordEvent} (hg : GoodFinish s)
    (hstep : coordStep s ev = some s2) : GoodFinish s2 := by
  obtain ⟨hrec, hfin⟩ := hg
  cases ev with
  | fetch k =>
    unfold coordStep at hstep
    dsimp only at hstep
    cases htk : s.tasks k
    all_goals rw [htk] at hstep
    case idle =>
      cases hstep
      exact ⟨hrec, finished_after_setTask hfin (fun st h => by cases h)⟩
    all_goals cases hstep
  | check k =>
    unfold coordStep at hstep
    dsimp only at hstep
    cases htk : s.tasks k
    all_goals rw [htk] at hstep
    case fetched observed =>
      dsimp only at hstep
      by_cases ho : observed = ServerBoxState.running
      · rw [if_pos ho] at hstep
        cases hstep
        exact ⟨hrec, finished_after_setTask hfin (fun st h => by cases h)⟩
      · rw [if_neg ho] at hstep
        by_cases ha : (!s.autoResume) = true
        · rw [if_pos ha] at hstep
          cases hstep
          exact ⟨hrec, finished_after_setTask hfin (fun st h => by cases h)⟩
        · rw [if_neg ha] at hstep
          by_cases hf : s.inFlight = true
          · rw [if_pos hf] at hstep
            cases hstep
            exact ⟨hrec, finished_after_setTask hfin (fun st h => by cases h)⟩
          · rw [if_neg hf] at hstep
            cases hstep
            exact ⟨hrec, finished_after_setTask hfin (fun st h => by cases h)⟩
    all_goals cases hstep
  | settleOk =>
    unfold coordStep at hstep
    dsimp only at hstep
    by_cases hf : s.inFlight = true
    · rw [if_pos hf] at hstep
      cases hstep
      exact ⟨fun _ => rfl, hfin⟩
    · rw [if_neg hf] at hstep
      cases hstep
  | settleErr =>
    unfold coordStep at hstep
    dsimp only at hstep
    by_cases hf : s.inFlight = true
    · rw [if_pos hf] at hstep
      cases hstep
      exact ⟨hrec, hfin⟩
    · rw [if_neg hf] at hstep
      cases hstep
  | finish k =>
    unfold coordStep at hstep
    dsimp only at hstep
    cases htk : s.tasks k
    all_goals rw [htk] at hstep
    case joined g =>
      dsimp only at hstep
      by_cases hmem : g ∈ s.settledOk
      · rw [if_pos hmem] at hstep
        cases hstep
        have hrun : s.recordState = ServerBoxState.running := by
          apply hrec
          intro hempty
          rw [hempty] at hmem
          cases hmem
        refine ⟨hrec, ?_⟩
        intro j st hj
        dsimp only at hj
        rw [setTask_apply] at hj
        by_cases hjk : j = k
        · rw [if_pos hjk] at hj
          cases hj
          exact hrun
        · rw [if_neg hjk] at hj
          exact hfin j st hj
      · rw [if_neg hmem] at hstep
        cases hstep
    all_goals cases hstep
  | abort k =>
    unfold coordStep at hstep
    dsimp only at hstep
    cases htk : s.tasks k
    all_goals rw [htk] at hstep
    case joined g =>
      dsimp only at hstep
      by_cases hmem : g ∈ s.settledErr
      · rw [if_pos hmem] at hstep
        cases hstep
        exact ⟨hrec, finished_after_setTask hfin (fun st h => by cases h)⟩
      · rw [if_neg hmem] at hstep
        cases hstep
    all_goals cases hstep

/-- GoodFinish is preserved by whole schedules. -/
lemma goodFinish_run :
    ∀ (evs : List CoordEvent) (s s2 : CoordState), GoodFinish s →
      coordRun s evs = some s2 → GoodFinish s2 := by
  intro evs
  induction evs with
  | nil =>
    intro s s2 hg hrun
    cases hrun
    exact hg
  | cons ev rest ih =>
    intro s s2 hg hrun
    rw [coordRun] at hrun
    cases hstep : coordStep s ev with
    | none =>
      rw [hstep] at hrun
      cases hrun
    | some s1 =>
      rw [hstep] at hrun
      exact ih s1 s2 (goodFinish_step hg hstep) hrun

/-- Invariant of the window before any settle: auto-resume is on, the record
still shows the initial non-running state so every fetched observation is
that state, nothing has settled, and the resume-call counter is exactly the
in-flight flag. -/
def PrePhase (s0 : ServerBoxState) (s : CoordState) : Prop :=
  s.autoResume = true ∧ s.recordState = s0 ∧ s.settledOk = [] ∧ s.settledErr = [] ∧
  (∀ k obs, s.tasks k = .fetched obs → obs = s0) ∧
  s.resumeCalls = (if s.inFlight then 1 else 0)

/-- One non-settle step inside the window: the invariant is kept, an
in-flight resume stays in flight, and a map check leaves a resume in
flight. -/
lemma prePhase_step {s0 : ServerBoxState} {s s2 : CoordState} {ev : CoordEvent}
    (hs0 : ¬ s0 = ServerBoxState.running) (hpre : PrePhase s0 s)
    (hnset : isSettle ev = false) (hstep : coordStep s ev = some s2) :
    PrePhase s0 s2 ∧ (s.inFlight = true → s2.inFlight = true) ∧
      (isCheck ev = true → s2.inFlight = true) := by
  obtain ⟨hauto, hrec, hok, herr, hobs, hcalls⟩ := hpre
  cases ev with
  | fetch k =>
    unfold coordStep at hstep
    dsimp only at hstep
    cases htk : s.tasks k
    all_goals rw [htk] at hstep
    case idle =>
      cases hstep
      refine ⟨⟨hauto, hrec, hok, herr, ?_, hcalls⟩, fun h => h, fun h => by cases h⟩
      intro j obs hj
      dsimp only at hj
      rw [setTask_apply] at hj
      by_cases hjk : j = k
      · rw [if_pos hjk] at hj
        cases hj
        exact hrec
      · rw [if_neg hjk] at hj
        exact hobs j obs hj
    all_goals cases hstep
  | check k =>
    unfold coordStep at hstep
    dsimp only at hstep
    cases htk : s.tasks k
    all_goals rw [htk] at hstep
    case fetched observed =>
      dsimp only at hstep
      have hobsk : observed = s0 := hobs k observed htk
      have ho : ¬ observed = ServerBoxState.running := by
        rw [hobsk]
        exact hs0
      rw [if_neg ho] at hstep
      rw [hauto] at hstep
      rw [if_neg (by decide)] at hstep
      by_cases hf : s.inFlight = true
      · rw [if_pos hf] at hstep
        cases hstep
        refine ⟨⟨rfl, hrec, hok, herr, ?_, hcalls⟩, fun h => h, fun _ => hf⟩
        intro j obs hj
        dsimp only at hj
        rw [setTask_apply] at hj
        by_cases hjk : j = k
        · rw [if_pos hjk] at hj
          cases hj
        · rw [if_neg hjk] at hj
          exact hobs j obs hj
      · rw [if_neg hf] at hstep
        cases hstep
        rw [Bool.not_eq_true] at hf
        rw [hf, if_neg (by simp)] at hcalls
        refine ⟨⟨rfl, hrec, hok, herr, ?_, by dsimp only; rw [hcalls]; decide⟩,
          fun h => rfl, fun _ => rfl⟩
        intro j obs hj
        dsimp only at hj
        rw [setTask_apply] at hj
        by_cases hjk : j = k
        · rw [if_pos hjk] at hj
          cases hj
        · rw [if_neg hjk] at hj
          exact hobs j obs hj
    all_goals cases hstep
  | settleOk =>
    cases hnset
  | settleErr =>
    cases hnset
  | finish k =>
    unfold coordStep at hstep
    dsimp only at hstep
    cases htk : s.tasks k
    all_goals rw [htk] at hstep
    case joined g =>
      dsimp only at hstep
      rw [hok] at hstep
      simp only [List.not_mem_nil] at hstep
      rw [if_neg (by exact fun h => h)] at hstep
      cases hstep
    all_goals cases hstep
  | abort k =>
    unfold coordStep at hstep
    dsimp only at hstep
    cases htk : s.tasks k
    all_goals rw [htk] at hstep
    case joined g =>
      dsimp only at hstep
      rw [herr] at hstep
      simp only [List.not_mem_nil] at hstep
      rw [if_neg (by exact fun h => h)] at hstep
      cases hstep
    all_goals cases hstep

/-- PrePhase is preserved by settle-free schedules, in-flight is sticky, and
any check event leaves a resume in flight. -/
lemma prePhase_run {s0 : ServerBoxState} (hs0 : ¬ s0 = ServerBoxState.running) :
    ∀ (evs : List CoordEvent) (s s2 : CoordState), PrePhase s0 s →
      (∀ e ∈ evs, isSettle e = false) → coordRun s evs = some s2 →
      PrePhase s0 s2 ∧ (s.inFlight = true → s2.inFlight = true) ∧
        ((∃ e ∈ evs, isCheck e = true) → s2.inFlight = true) := by
  intro evs
  induction evs with
  | nil =>
    intro s s2 hpre _ hrun
    cases hrun
    refine ⟨hpre, fun h => h, ?_⟩
    rintro ⟨e, he, _⟩
    exact absurd he (List.not_mem_nil e)
  | cons ev rest ih =>
    intro s s2 hpre hnset hrun
    rw [coordRun] at hrun
    cases hstep : coordStep s ev with
    | none =>
      rw [hstep] at hrun
      cases hrun
    | some s1 =>
      rw [hstep] at hrun
      obtain ⟨hpre1, hsticky, hchk⟩ :=
        prePhase_step hs0 hpre (hnset ev (List.mem_cons_self ev rest)) hstep
      obtain ⟨hpre2, hsticky2, hchk2⟩ :=
        ih s1 s2 hpre1 (fun e he => hnset e (List.mem_cons_of_mem ev he)) hrun
      refine ⟨hpre2, fun h => hsticky2 (hsticky h), ?_⟩
      rintro ⟨e, he, hce⟩
      rcases List.mem_cons.mp he with heq | hmem
      · subst heq
        exact hsticky2 (hchk hce)
      · exact hchk2 ⟨e, hmem, hce⟩

/-- A step that is not a map check never starts a resume call. -/
lemma noCheck_step {s s2 : CoordState} {ev : CoordEvent}
    (hnc : isCheck ev = false) (hstep : coordStep s ev = some s2) :
    s2.resumeCalls = s.resumeCalls := by
  cases ev with
  | fetch k =>
    unfold coordStep at hstep
    dsimp only at hstep
    cases htk : s.tasks k
    all_goals rw [htk] at hstep
    case idle =>
      cases hstep
      rfl
    all_goals cases hstep
  | check k =>
    cases hnc
  | settleOk =>
    unfold coordStep at hstep
    dsimp only at hstep
    by_cases hf : s.inFlight = true
    · rw [if_pos hf] at hstep
      cases hstep
      rfl
    · rw [if_neg hf] at hstep
      cases hstep
  | settleErr =>
    unfold coordStep at hstep
    dsimp only at hstep
    by_cases hf : s.inFlight = true
    · rw [if_pos hf] at hstep
      cases hstep
      rfl
    · rw [if_neg hf] at hstep
      cases hstep
  | finish k =>
    unfold coordStep at hstep
    dsimp only at hstep
    cases htk : s.tasks k
    all_goals rw [htk] at hstep
    case joined g =>
      dsimp only at hstep
      by_cases hmem : g ∈ s.settledOk
      · rw [if_pos hmem] at hstep
        cases hstep
        rfl
      · rw [if_neg hmem] at hstep
        cases hstep
    all_goals cases hstep
  | abort k =>
    unfold coordStep at hstep
    dsimp only at hstep
    cases htk : s.tasks k
    all_goals rw [htk] at hstep
    case joined g =>
      dsimp only at hstep
      by_cases hmem : g ∈ s.settledErr
      · rw [if_pos hmem] at hstep
        cases hstep
        rfl
      · rw [if_neg hmem] at hstep
        cases hstep
    all_goals cases hstep

/-- A check-free schedule never starts a resume call. -/
lemma noCheck_run :
    ∀ (evs : List CoordEvent) (s s2 : CoordState),
      (∀ e ∈ evs, isCheck e = false) → coordRun s evs = some s2 →
      s2.resumeCalls = s.resumeCalls := by
  intro evs
  induction evs with
  | nil =>
    intro s s2 _ hrun
    cases hrun
    rfl
  | cons ev rest ih =>
    intro s s2 hnc hrun
    rw [coordRun] at hrun
    cases hstep : coordStep s ev with
    | none =>
      rw [hstep] at hrun
      cases hrun
    | some s1 =>
      rw [hstep] at hrun
      rw [ih s1 s2 (fun e he => hnc e (List.mem_cons_of_mem ev he)) hrun]
      exact noCheck_step (hnc ev (List.mem_cons_self ev rest)) hstep

/-- C1: for a non-running record with auto-resume on, under any interleaving
of concurrent ensureRunning callers in which all map-slot checks happen
before the shared resume promise settles (the concurrency window) and no new
caller checks the map afterwards, exactly one underlying resume call is
started once some caller reaches the check, and every caller that finishes
normally returns a record in the running state. -/
theorem C1_single_resume (s0 : ServerBoxState) (pre post : List CoordEvent)
    (s2 : CoordState)
    (hs0 : ¬ s0 = ServerBoxState.running)
    (hpre : ∀ e ∈ pre, isSettle e = false)
    (hpost : ∀ e ∈ post, isCheck e = false)
    (hrun : coordRun (coordInit s0) (pre ++ post) = some s2) :
    ((∃ e ∈ pre, isCheck e = true) → s2.resumeCalls = 1) ∧
    (∀ k st, s2.tasks k = TaskPhase.finished st → st = ServerBoxState.running) := by
  have hg0 : GoodFinish (coordInit s0) := by
    constructor
    · intro h
      exact absurd rfl h
    · intro k st h
      cases h
  have hg2 : GoodFinish s2 := goodFinish_run (pre ++ post) (coordInit s0) s2 hg0 hrun
  rw [coordRun_append] at hrun
  cases h1 : coordRun (coordInit s0) pre with
  | none =>
    rw [h1] at hrun
    cases hrun
  | some s1 =>
    rw [h1] at hrun
    dsimp only at hrun
    have hpre0 : PrePhase s0 (coordInit s0) := by
      refine ⟨rfl, rfl, rfl, rfl, ?_, rfl⟩
      intro k obs h
      cases h
    obtain ⟨hpre1, _, hchk⟩ := prePhase_run hs0 pre (coordInit s0) s1 hpre0 hpre h1
    refine ⟨?_, hg2.2⟩
    intro hex
    have hf1 : s1.inFlight = true := hchk hex
    obtain ⟨_, _, _, _, _, hcalls1⟩ := hpre1
    rw [noCheck_run post s1 s2 hpost hrun, hcalls1, if_pos hf1]

/-- Concurrency-window half of the witness schedule: two callers fetch and
then both check the map before the resume settles. -/
def C1schedA : List CoordEvent :=
  [CoordEvent.fetch 0, CoordEvent.fetch 1, CoordEvent.check 0, CoordEvent.check 1]

/-- Post-settle half of the witness schedule: the resume succeeds and both
callers re-fetch and finish. -/
def C1schedB : List CoordEvent :=
  [CoordEvent.settleOk, CoordEvent.finish 0, CoordEvent.finish 1]

/-- Final state reached by the witness schedule. -/
def C1final : CoordState :=
  { autoResume := true
    inFlight := false
    resumeCalls := 1
    settledOk := [1]
    settledErr := []
    recordState := .running
    tasks :=
      setTask
        (setTask
          (setTask
            (setTask
              (setTask
                (setTask (fun _ => TaskPhase.idle) 0 (.fetched .stopped))
                1 (.fetched .stopped))
              0 (.joined 1))
            1 (.joined 1))
          0 (.finished .running))
        1 (.finished .running) }

/-- C1 witness: the schedule with two callers checking inside the window of a
stopped record runs to completion with exactly one resume call and both
callers finishing on the running record. -/
theorem C1_single_resume_witness :
    (¬ ServerBoxState.stopped = ServerBoxState.running) ∧
    (∀ e ∈ C1schedA, isSettle e = false) ∧
    (∀ e ∈ C1schedB, isCheck e = false) ∧
    coordRun (coordInit ServerBoxState.stopped) (C1schedA ++ C1schedB) = some C1final ∧
    C1final.resumeCalls = 1 ∧
    (∀ k st, C1final.tasks k = TaskPhase.finished st → st = ServerBoxState.running) :=
  have hrun : coordRun (coordInit ServerBoxState.stopped) (C1schedA ++ C1schedB) =
      some C1final := rfl
  have hmain := C1_single_resume ServerBoxState.stopped C1schedA C1schedB C1final
    (by decide) (by decide) (by decide) hrun
  ⟨by decide, by decide, by decide, hrun,
    hmain.1 ⟨CoordEvent.check 0, by decide, rfl⟩, hmain.2⟩
